import Mathlib

/-!
Shallow embedding of the SublimeTmpl plugin (src/sublime-tmpl.py) and
verification of the specification claims about it.

Python values appearing in settings are modelled by the inductive type
`Val`; Python dictionaries are insertion-ordered association lists.
Machinery that can raise a Python exception is modelled with
`Except String`; host-visible side effects (console prints, dialogs,
file reads and writes, directory creation, buffer creation) are recorded
in an explicit effect trace.
-/

set_option maxHeartbeats 1000000

/-- Python values (strings, booleans, lists, dicts, None) as they occur in
the plugin settings. -/
inductive Val where
  | str : String → Val
  | bool : Bool → Val
  | list : List Val → Val
  | dict : List (String × Val) → Val
  | none : Val
deriving Repr

mutual

/-- Structural (Python `==`) equality on `Val`. -/
def Val.beq : Val → Val → Bool
  | .str a, .str b => a == b
  | .bool a, .bool b => a == b
  | .none, .none => true
  | .list a, .list b => Val.beqList a b
  | .dict a, .dict b => Val.beqDict a b
  | _, _ => false

/-- Elementwise equality of Python lists. -/
def Val.beqList : List Val → List Val → Bool
  | [], [] => true
  | a :: as, b :: bs => Val.beq a b && Val.beqList as bs
  | _, _ => false

/-- Entrywise equality of Python dicts as ordered association lists. -/
def Val.beqDict : List (String × Val) → List (String × Val) → Bool
  | [], [] => true
  | (k, a) :: as, (l, b) :: bs => k == l && Val.beq a b && Val.beqDict as bs
  | _, _ => false

end

instance : BEq Val := ⟨Val.beq⟩

/-- A Python dict with string keys (settings dictionaries). -/
abbrev Dict := List (String × Val)

/-- A Python dict whose keys are arbitrary values (the registry keys
template formats by the configured `id` value and locations by folder). -/
abbrev VDict := List (Val × Val)

/-- `d.get(k)` on a string-keyed dict: first binding wins. -/
def dictGet? (d : Dict) (k : String) : Option Val :=
  match d with
  | [] => Option.none
  | (k2, v) :: rest => if k2 == k then some v else dictGet? rest k

/-- `d.get(k, default)`. -/
def dictGetD (d : Dict) (k : String) (default : Val) : Val :=
  (dictGet? d k).getD default

/-- `k in d` for a string-keyed dict. -/
def dictHasKey (d : Dict) (k : String) : Bool :=
  (dictGet? d k).isSome

/-- `d[k] = v`: replace in place if the key exists, else append
(CPython insertion-order semantics). -/
def dictSet (d : Dict) (k : String) (v : Val) : Dict :=
  match d with
  | [] => [(k, v)]
  | (k2, w) :: rest => if k2 == k then (k2, v) :: rest else (k2, w) :: dictSet rest k v

/-- `dst.update(src)`: entries of `src` override, insertion order preserved. -/
def dictUpdate (dst src : Dict) : Dict :=
  match src with
  | [] => dst
  | (k, v) :: rest => dictUpdate (dictSet dst k v) rest

/-- Lookup in a value-keyed dict using Python equality. -/
def vdictGet? (d : VDict) (k : Val) : Option Val :=
  match d with
  | [] => Option.none
  | (k2, v) :: rest => if Val.beq k2 k then some v else vdictGet? rest k

/-- `k in d` for a value-keyed dict. -/
def vdictMem (d : VDict) (k : Val) : Bool :=
  (vdictGet? d k).isSome

/-- `d[k] = v` on a value-keyed dict. -/
def vdictSet (d : VDict) (k : Val) (v : Val) : VDict :=
  match d with
  | [] => [(k, v)]
  | (k2, w) :: rest => if Val.beq k2 k then (k2, v) :: rest else (k2, w) :: vdictSet rest k v

/-- Python truthiness of a value. -/
def pyTruthy : Val → Bool
  | .str s => !(s == "")
  | .bool b => b
  | .list l => !l.isEmpty
  | .dict d => !d.isEmpty
  | .none => false

/-- Python `a + b` on settings values: lists and strings concatenate,
anything else raises `TypeError`. -/
def pyAdd : Val → Val → Except String Val
  | .list a, .list b => .ok (.list (a ++ b))
  | .str a, .str b => .ok (.str (a ++ b))
  | _, _ => .error "TypeError: unsupported operand types for +"

/-- Substring test on character lists (Python `t in s` for strings). -/
def isSubList (t : List Char) : List Char → Bool
  | [] => t.isEmpty
  | c :: rest => t.isPrefixOf (c :: rest) || isSubList t rest

/-- Python `s in v` for a string `s`: key membership for dicts, substring
test for strings, element membership for lists; `TypeError` otherwise. -/
def pyIn (s : String) (v : Val) : Except String Bool :=
  match v with
  | .dict d => .ok (dictHasKey d s)
  | .str t => .ok (isSubList s.data t.data)
  | .list l => .ok (l.any (fun x => Val.beq x (.str s)))
  | _ => .error "TypeError: argument of type is not iterable"

/-- Python `for x in v`: list elements, characters of a string,
keys of a dict; `TypeError` otherwise. -/
def pyIter (v : Val) : Except String (List Val) :=
  match v with
  | .list l => .ok l
  | .str s => .ok (s.data.map (fun c => Val.str (String.mk [c])))
  | .dict d => .ok (d.map (fun kv => Val.str kv.1))
  | _ => .error "TypeError: object is not iterable"

/-- Coerce a value that the code uses as a `str`; non-strings raise. -/
def asStr : Val → Except String String
  | .str s => .ok s
  | _ => .error "TypeError: expected str"

/-- Coerce a value that the code uses as a `dict`; anything else raises
`AttributeError`/`TypeError` at the corresponding call site. -/
def asDict : Val → Except String Dict
  | .dict d => .ok d
  | _ => .error "TypeError: expected dict"

/-! ### Python string primitives -/

/-- Auxiliary scan for Python `s.replace(t, v)` with explicit fuel (the
fuel is only a termination device; `s.length` is always enough). -/
def replaceAllF (t v : List Char) : Nat → List Char → List Char
  | 0, s => s
  | f + 1, s =>
    match s with
    | [] => []
    | c :: s2 =>
      if t.isPrefixOf (c :: s2) then v ++ replaceAllF t v f (List.drop t.length (c :: s2))
      else c :: replaceAllF t v f s2

/-- Python `s.replace(t, v)` on character lists: replace every
non-overlapping occurrence of `t`, scanning left to right.  An empty
`t` inserts `v` before every character and at the end, as CPython does. -/
def replaceAll (s t v : List Char) : List Char :=
  if t.isEmpty then v ++ (s.map (fun c => c :: v)).flatten
  else replaceAllF t v s.length s

/-- The fuel does not matter as long as it covers the input length. -/
theorem replaceAllF_fuel (t v : List Char) (ht : t ≠ []) :
    ∀ (f g : Nat) (s : List Char), s.length ≤ f → s.length ≤ g →
      replaceAllF t v f s = replaceAllF t v g s := by
  have ht1 : 0 < t.length := List.length_pos.mpr ht
  intro f
  induction f with
  | zero =>
    intro g s hf _
    have : s = [] := List.eq_nil_of_length_eq_zero (Nat.le_zero.mp hf)
    subst this
    cases g <;> rfl
  | succ f ih =>
    intro g s hf hg
    match s, g with
    | [], g => cases g <;> rfl
    | c :: s2, 0 => simp at hg
    | c :: s2, g + 1 =>
      simp only [replaceAllF]
      by_cases hp : t.isPrefixOf (c :: s2) = true
      · rw [if_pos hp, if_pos hp]
        have hd : (List.drop t.length (c :: s2)).length ≤ f := by
          simp only [List.length_drop, List.length_cons]
          simp only [List.length_cons] at hf
          omega
        have hd2 : (List.drop t.length (c :: s2)).length ≤ g := by
          simp only [List.length_drop, List.length_cons]
          simp only [List.length_cons] at hg
          omega
        clear ht1
        rw [ih g _ hd hd2]
      · rw [if_neg hp, if_neg hp]
        have h1 : s2.length ≤ f := by simp only [List.length_cons] at hf; omega
        have h2 : s2.length ≤ g := by simp only [List.length_cons] at hg; omega
        rw [ih g s2 h1 h2]

/-- Unfolding `replaceAll` on a nonempty text for a nonempty token. -/
theorem replaceAll_cons (t v : List Char) (c : Char) (s2 : List Char) (ht : t ≠ []) :
    replaceAll (c :: s2) t v =
      if t.isPrefixOf (c :: s2) then v ++ replaceAll (List.drop t.length (c :: s2)) t v
      else c :: replaceAll s2 t v := by
  have hte : t.isEmpty = false := by
    cases t with
    | nil => exact absurd rfl ht
    | cons a b => rfl
  simp only [replaceAll, hte, Bool.false_eq_true, if_false, List.length_cons, replaceAllF]
  by_cases hp : t.isPrefixOf (c :: s2) = true
  · rw [if_pos hp, if_pos hp]
    have ht1 : 0 < t.length := List.length_pos.mpr ht
    have : (List.drop t.length (c :: s2)).length ≤ s2.length := by
      simp only [List.length_drop, List.length_cons]; omega
    rw [replaceAllF_fuel t v ht s2.length (List.drop t.length (c :: s2)).length _ this le_rfl]
  · rw [if_neg hp, if_neg hp]

/-- `replaceAll` on the empty text. -/
theorem replaceAll_nil (t v : List Char) (ht : t ≠ []) : replaceAll [] t v = [] := by
  have hte : t.isEmpty = false := by
    cases t with
    | nil => exact absurd rfl ht
    | cons a b => rfl
  simp [replaceAll, hte, replaceAllF]

/-- Python `s.replace(t, v)` on strings. -/
def strReplace (s t v : String) : String :=
  String.mk (replaceAll s.data t.data v.data)

/-- Join a list of parts with a separator (`sep.join(parts)` shape);
used to state what "replacing every occurrence" means. -/
def joinWith (sep : List Char) : List (List Char) → List Char
  | [] => []
  | [p] => p
  | p :: q :: rest => p ++ sep ++ joinWith sep (q :: rest)

/-- Does a character list start with a (decimal) digit?  Mirrors the
regex lookahead `(?!\d)`. -/
def digitStart : List Char → Bool
  | [] => false
  | c :: _ => c.isDigit

/-- Does the tail after a `$` start a `${` occurrence that the regex
would match, i.e. a `{` not followed by a digit? -/
def braceNonDigit : List Char → Bool
  | '{' :: rest => !digitStart rest
  | _ => false

/-- The escaping pass `re.sub(r"(?<!\\)\${(?!\d)", '\${', line)` of
`create_from_template`: every `${` that is not preceded by a backslash
and not followed by a digit gets a backslash inserted in front of it.
`prev` is the previously scanned character of the original line. -/
def escDollar (prev : Option Char) : List Char → List Char
  | [] => []
  | c :: cs =>
    if c = '$' ∧ braceNonDigit cs ∧ prev ≠ some '\\' then
      '\\' :: c :: escDollar (some c) cs
    else
      c :: escDollar (some c) cs

/-- Accumulate the current line (reversed) while splitting text into
lines the way iterating a Python text stream does: after every newline
character, keeping the terminator. -/
def splitLinesAux (acc : List Char) : List Char → List (List Char)
  | [] => if acc.isEmpty then [] else [acc.reverse]
  | c :: rest =>
    if c = '\n' then (acc.reverse ++ ['\n']) :: splitLinesAux [] rest
    else splitLinesAux (c :: acc) rest

/-- `for line in src` over the contents of a text stream. -/
def splitLinesKeep (s : List Char) : List (List Char) :=
  splitLinesAux [] s

/-! ### Python `%` formatting with one string argument

`pattern % key` in the source.  The scanner follows CPython's
printf-style rules for the cases that can arise with a single `str`
argument: `%%` is literal, `%s` substitutes (honouring width, precision
and the `-` flag), `%r`/`%a` substitute the repr (modelled as quote
wrapping), `%c` requires a one-character string, numeric conversions
and `*` widths raise `TypeError` against a string argument, a mapping
key raises `TypeError`, and an unknown conversion raises `ValueError`.
Exactly one argument must be consumed overall. -/

/-- Right-justify to width `w` with spaces, or left-justify on `-`. -/
def padTo (w : Nat) (minus : Bool) (s : List Char) : List Char :=
  if s.length ≥ w then s
  else if minus then s ++ List.replicate (w - s.length) ' '
  else List.replicate (w - s.length) ' ' ++ s

/-- Parse a run of decimal digits into a number, returning the rest. -/
def takeNum (s : List Char) : Nat × List Char :=
  let ds := s.takeWhile Char.isDigit
  (ds.foldl (fun n c => n * 10 + (c.toNat - '0'.toNat)) 0, s.drop ds.length)

/-- May `c` still belong to the flags/width/precision/length part of a
conversion specifier? -/
def specContinues (c : Char) : Bool :=
  c.isDigit ∨ c = '#' ∨ c = '0' ∨ c = '-' ∨ c = ' ' ∨ c = '+' ∨
  c = '.' ∨ c = '*' ∨ c = 'h' ∨ c = 'l' ∨ c = 'L'

/-- Interpret one complete conversion specifier: `buf` holds the
flag/width/precision characters, `conv` the conversion character.
Returns the produced text and whether the argument was consumed. -/
def specApply (arg : List Char) (buf : List Char) (conv : Char) : Except String (List Char × Bool) :=
  let flags := buf.takeWhile (fun c => c = '#' ∨ c = '0' ∨ c = '-' ∨ c = ' ' ∨ c = '+')
  let minus := flags.contains '-'
  let s1 := buf.drop flags.length
  match s1 with
  | '*' :: _ => .error "TypeError: * wants int"
  | _ =>
    let (width, s2) := takeNum s1
    match s2 with
    | '.' :: '*' :: _ => .error "TypeError: * wants int"
    | _ =>
      let (prec, s5) : Option Nat × List Char :=
        match s2 with
        | '.' :: s3 => let (p, s4) := takeNum s3; (some p, s4)
        | _ => (Option.none, s2)
      let s6 := s5.drop (s5.takeWhile (fun c => c = 'h' ∨ c = 'l' ∨ c = 'L')).length
      if !s6.isEmpty then .error "ValueError: unsupported format character"
      else if conv = '%' then .ok (['%'], false)
      else if conv = 's' then
        let base := match prec with | some p => arg.take p | Option.none => arg
        .ok (padTo width minus base, true)
      else if conv = 'r' ∨ conv = 'a' then
        let base := '\x27' :: arg ++ ['\x27']
        let base2 := match prec with | some p => base.take p | Option.none => base
        .ok (padTo width minus base2, true)
      else if conv = 'c' then
        if arg.length = 1 then .ok (padTo width minus arg, true)
        else .error "TypeError: %c requires a single character"
      else if conv = 'd' ∨ conv = 'i' ∨ conv = 'o' ∨ conv = 'u' ∨ conv = 'x' ∨
              conv = 'X' ∨ conv = 'e' ∨ conv = 'E' ∨ conv = 'f' ∨ conv = 'F' ∨
              conv = 'g' ∨ conv = 'G' then
        .error "TypeError: format conversion requires a number"
      else .error "ValueError: unsupported format character"

mutual

/-- Scan the pattern outside a conversion specifier; `used` records
whether the single argument has been consumed already. -/
def pyFmtAux (arg : List Char) : List Char → Bool → Except String (List Char × Bool)
  | [], used => .ok ([], used)
  | '%' :: rest, used => pyFmtSpecScan arg rest [] used
  | c :: rest, used =>
    match pyFmtAux arg rest used with
    | .error e => .error e
    | .ok (out, u2) => .ok (c :: out, u2)

/-- Scan the inside of a conversion specifier, accumulating the
flag/width/precision characters in `buf`. -/
def pyFmtSpecScan (arg : List Char) : List Char → List Char → Bool → Except String (List Char × Bool)
  | [], _, _ => .error "ValueError: incomplete format"
  | c :: rest, buf, used =>
    if buf.isEmpty ∧ c = '(' then .error "TypeError: format requires a mapping"
    else if specContinues c then pyFmtSpecScan arg rest (buf ++ [c]) used
    else
      match specApply arg buf c with
      | .error e => .error e
      | .ok (txt, consumed) =>
        if consumed ∧ used then .error "TypeError: not enough arguments for format string"
        else
          match pyFmtAux arg rest (used ∨ consumed) with
          | .error e => .error e
          | .ok (out, u2) => .ok (txt ++ out, u2)

end

/-- Python `pattern % arg` for a single string argument. -/
def pyFmt (pattern arg : String) : Except String String :=
  match pyFmtAux arg.data pattern.data false with
  | .error e => .error e
  | .ok (out, used) =>
    if used then .ok (String.mk out)
    else .error "TypeError: not all arguments converted during string formatting"

example : pyFmt "{{%s}}" "name" = .ok "{{name}}" := by rfl
example : pyFmt "${%s}" "name" = .ok "${name}" := by rfl
example : (pyFmt "{{name}}" "test").isOk = false := by rfl
example : (pyFmt "%d" "test").isOk = false := by rfl
example : (pyFmt "%s %s" "test").isOk = false := by rfl
example : pyFmt "%.2s" "test" = .ok "te" := by rfl

/-! ### POSIX path manipulation (`os.path` on the plugin's paths) -/

/-- Remove a trailing run of `'/'` characters (CPython `rstrip('/')`). -/
def dropTrailingSlashes (l : List Char) : List Char :=
  (l.reverse.dropWhile (fun c => c = '/')).reverse

/-- The prefix of `p` up to and including the last `'/'`
(`p[:p.rfind('/') + 1]`); empty when `p` has no slash. -/
def takeToLastSlash (p : List Char) : List Char :=
  (p.reverse.dropWhile (fun c => c ≠ '/')).reverse

/-- `posixpath.dirname` on character lists. -/
def dirnameL (p : List Char) : List Char :=
  let head := takeToLastSlash p
  if !head.isEmpty ∧ ¬head.all (fun c => c = '/') then dropTrailingSlashes head
  else head

/-- `os.path.dirname`. -/
def posixDirname (p : String) : String :=
  String.mk (dirnameL p.data)

/-- `os.path.basename`: the part after the last `'/'`. -/
def basenameL (p : List Char) : List Char :=
  (p.reverse.takeWhile (fun c => c ≠ '/')).reverse

/-- `os.path.basename` on strings. -/
def posixBasename (p : String) : String :=
  String.mk (basenameL p.data)

/-- Split a character list at a separator character (Python `split`). -/
def splitChar (sep : Char) : List Char → List (List Char)
  | [] => [[]]
  | c :: rest =>
    let r := splitChar sep rest
    if c = sep then [] :: r
    else
      match r with
      | [] => [[c]]
      | p :: ps => (c :: p) :: ps

/-- `posixpath.normpath`: collapse empty and `.` components and resolve
`..` components where possible. -/
def posixNormpath (path : String) : String :=
  if path = "" then "." else
  let d := path.data
  let initialSlashes : Nat :=
    if d.take 1 = ['/'] then
      if d.take 2 = ['/', '/'] ∧ ¬(d.take 3 = ['/', '/', '/']) then 2 else 1
    else 0
  let comps := splitChar '/' d
  let newComps := comps.foldl
    (fun acc comp =>
      if comp = [] ∨ comp = ['.'] then acc
      else if ¬(comp = ['.', '.']) ∨ (initialSlashes = 0 ∧ acc = []) ∨
              (acc.getLast? = some ['.', '.']) then acc ++ [comp]
      else acc.dropLast)
    []
  let joined := joinWith ['/'] newComps
  let result := List.replicate initialSlashes '/' ++ joined
  if result.isEmpty then "." else String.mk result

/-- `posixpath.isabs`. -/
def posixIsAbs (p : String) : Bool :=
  p.data.take 1 = ['/']

/-- `posixpath.join` of two components. -/
def posixJoin2 (a b : String) : String :=
  if posixIsAbs b then b
  else if a = "" ∨ a.data.getLast? = some '/' then a ++ b
  else a ++ "/" ++ b

/-- `posixpath.join` of several components. -/
def posixJoin (a : String) (rest : List String) : String :=
  rest.foldl posixJoin2 a

/-- `os.path.abspath` with an explicit current working directory. -/
def posixAbspath (cwd : String) (p : String) : String :=
  posixNormpath (if posixIsAbs p then p else posixJoin2 cwd p)

/-- `os.path.commonprefix` of two strings: their longest common
character prefix. -/
def commonPrefix2 : List Char → List Char → List Char
  | c :: a, d :: b => if c = d then c :: commonPrefix2 a b else []
  | _, _ => []

/-- Count the common leading components of two component lists. -/
def commonCompCount : List (List Char) → List (List Char) → Nat
  | c :: a, d :: b => if c = d then commonCompCount a b + 1 else 0
  | _, _ => 0

/-- `posixpath.relpath(path, start)` (with an explicit cwd for the
internal `abspath` calls). -/
def posixRelpath (cwd path start : String) : String :=
  let startList := (splitChar '/' (posixAbspath cwd start).data).filter (fun x => ¬x.isEmpty)
  let pathList := (splitChar '/' (posixAbspath cwd path).data).filter (fun x => ¬x.isEmpty)
  let i := commonCompCount startList pathList
  let relList := List.replicate (startList.length - i) ['.', '.'] ++ pathList.drop i
  if relList.isEmpty then "." else String.mk (joinWith ['/'] relList)

/-- `os.path.splitext` on character lists. -/
def splitextL (p : List Char) : List Char × List Char :=
  let revBase := (basenameL p).reverse
  let afterDot := revBase.takeWhile (fun c => c ≠ '.')
  if afterDot.length = revBase.length then (p, [])
  else
    let stem := (revBase.drop (afterDot.length + 1)).reverse
    if stem.any (fun c => c ≠ '.') then
      let ext := '.' :: afterDot.reverse
      (p.take (p.length - ext.length), ext)
    else (p, [])

/-- `os.path.splitext` on strings. -/
def posixSplitext (p : String) : String × String :=
  let (r, e) := splitextL p.data
  (String.mk r, String.mk e)

example : posixDirname "/a/b" = "/a" := by rfl
example : posixDirname "/a" = "/" := by rfl
example : posixDirname "/" = "/" := by rfl
example : posixDirname "a" = "" := by rfl
example : posixNormpath "/t/../a//b/./c" = "/a/b/c" := by rfl
example : posixAbspath "/w" "x/y" = "/w/x/y" := by rfl
example : posixRelpath "/w" "/a/b/c" "/a" = "b/c" := by rfl
example : posixRelpath "/w" "/a" "/a" = "." := by rfl
example : posixSplitext "/t/x.cpp.tmpl" = ("/t/x.cpp", ".tmpl") := by rfl
example : posixSplitext "/t/.bashrc" = ("/t/.bashrc", "") := by rfl

/-! ### Settings merger (`MergedSettings`) -/

/-- The two settings layers: plugin-global settings and the project
override block (`view.settings().get("SublimeTmpl", {})`). -/
structure MergedSettings where
  global_settings : Dict
  project_settings : Dict

/-- `MergedSettings.get_global`. -/
def MergedSettings.get_global (ms : MergedSettings) (name : String) (default : Val) : Val :=
  dictGetD ms.global_settings name default

/-- `MergedSettings.get_project`. -/
def MergedSettings.get_project (ms : MergedSettings) (name : String) (default : Val) : Val :=
  dictGetD ms.project_settings name default

/-- Is a value Python `None`? -/
def isNoneVal : Val → Bool
  | .none => true
  | _ => false

/-- `MergedSettings.get(name, default, merge)`: with `merge` and a
non-`None` default, concatenate the project list (or `[]`) with the
global resolution; otherwise project value if present, else global,
else default.  The `+` can raise `TypeError` on non-list values. -/
def MergedSettings.get (ms : MergedSettings) (name : String) (default : Val) (merge : Bool) : Except String Val :=
  if merge ∧ ¬isNoneVal default then
    pyAdd (dictGetD ms.project_settings name (.list [])) (ms.get_global name default)
  else
    .ok (dictGetD ms.project_settings name (ms.get_global name default))

/-- `get_template_setting`: format-specific value, else project, else
global, else default. -/
def get_template_setting (template_format : Dict) (ms : MergedSettings) (name : String) (default : Val) : Val :=
  dictGetD template_format name (ms.get_project name (ms.get_global name default))

/-- `get_attr_setting`: merge the `attr` dicts, later layers override. -/
def get_attr_setting (template_format : Dict) (ms : MergedSettings) : Except String Dict := do
  let g ← asDict (ms.get_global "attr" (.dict []))
  let p ← asDict (ms.get_project "attr" (.dict []))
  let f ← asDict (dictGetD template_format "attr" (.dict []))
  pure (dictUpdate (dictUpdate g p) f)

/-! ### Template format registry (`get_template_locations`) -/

/-- Console message for a format entry missing `id` or `format`. -/
def skipFormatMsg (tf : Val) : String :=
  "skipping format due to missing \x27id\x27 or \x27format\x27: " ++ reprStr tf

/-- Console message for a format whose contents lack `replace_pattern`. -/
def skipPatternMsg (key : Val) : String :=
  "skipping format " ++ reprStr key ++ " due to missing \x27replace_pattern\x27"

/-- Console message for a location entry missing `format`. -/
def skipLocationMsg (loc : Val) : String :=
  "skipping location " ++ reprStr loc ++ " due to missing \x27format\x27"

/-- Console message for a location referencing an unknown format id. -/
def skipUnknownFormatMsg (loc fid : Val) : String :=
  "skipping location " ++ reprStr loc ++ " due to unknown format " ++ reprStr fid

/-- The first loop of `get_template_locations`: register each format
descriptor under its `id` unless the entry is malformed or the id is
already registered (first wins). -/
def processFormats : List Val → VDict → List String → Except String (VDict × List String)
  | [], vf, logs => .ok (vf, logs)
  | tf :: rest, vf, logs => do
    let hasId ← pyIn "id" tf
    if ¬hasId then processFormats rest vf (logs ++ [skipFormatMsg tf])
    else do
      let hasFmt ← pyIn "format" tf
      if ¬hasFmt then processFormats rest vf (logs ++ [skipFormatMsg tf])
      else do
        let tfd ← asDict tf
        let key := dictGetD tfd "id" .none
        let contents := dictGetD tfd "format" .none
        let hasPat ← pyIn "replace_pattern" contents
        if ¬hasPat then processFormats rest vf (logs ++ [skipPatternMsg key])
        else
          if ¬vdictMem vf key then processFormats rest (vdictSet vf key contents) logs
          else processFormats rest vf logs

/-- Python `folder in location` where `location` is a string-keyed dict:
true iff `folder` equals one of the keys. -/
def valInDictKeys (d : Dict) (folder : Val) : Bool :=
  match folder with
  | .str s => dictHasKey d s
  | _ => false

/-- The second loop of `get_template_locations`: map folders to resolved
formats.  Note the guard is `folder not in location` — membership in the
*descriptor* dict — exactly as in the source. -/
def processLocations (validFormats : VDict) (defaultLocation : Val) :
    List Val → VDict → List String → Except String (VDict × List String)
  | [], locs, logs => .ok (locs, logs)
  | location :: rest, locs, logs => do
    let hasFmt ← pyIn "format" location
    if ¬hasFmt then processLocations validFormats defaultLocation rest locs (logs ++ [skipLocationMsg location])
    else do
      let locd ← asDict location
      let formatId := dictGetD locd "format" .none
      match vdictGet? validFormats formatId with
      | Option.none =>
        processLocations validFormats defaultLocation rest locs
          (logs ++ [skipUnknownFormatMsg location formatId])
      | some contents =>
        let foldersV := dictGetD locd "folders" defaultLocation
        let folders := match foldersV with | .list l => l | v => [v]
        let locs2 := folders.foldl
          (fun acc folder =>
            if ¬valInDictKeys locd folder then vdictSet acc folder contents
            else acc)
          locs
        processLocations validFormats defaultLocation rest locs2 logs

/-- `get_template_locations(settings, filterBy)`: returns the resolved
folder → format map together with the console lines printed while
building it. -/
def get_template_locations (packagesPath : String) (ms : MergedSettings) (filterBy : String) :
    Except String (VDict × List String) := do
  let formatsV ← ms.get "template_formats" (.list []) true
  let formatEntries ← pyIter formatsV
  let (validFormats, logs1) ← processFormats formatEntries [] []
  let defaultLocation : Val := .list [.str (posixJoin packagesPath ["User", "SublimeTmpl", "templates"])]
  let candidatesV ←
    if filterBy == "project" then pure (ms.get_project "template_locations" (.list []))
    else ms.get "template_locations" (.list []) true
  let candidates ← pyIter candidatesV
  let (locations, logs2) ← processLocations validFormats defaultLocation candidates [] []
  pure (locations, logs1 ++ logs2)

/-! ### Host-visible effects -/

/-- Side effects a command performs against the host and filesystem. -/
inductive Effect where
  | print (s : String)
  | printLocations (locs : VDict)
  | printSetting (name : String)
  | dialog (s : String)
  | makedirs (p : String)
  | readFile (p : String)
  | loadResource (p : String)
  | writeFile (p : String) (content : String)
  | newFile
  | setSetting (k : String) (v : Val)
  | insertSnippet (s : String)
deriving Repr

/-- Console-only effects: prints to the diagnostic console. -/
def Effect.isConsole : Effect → Bool
  | .print _ => true
  | .printLocations _ => true
  | .printSetting _ => true
  | _ => false

/-- Effects that only report to the user (console lines and dialogs). -/
def Effect.isReport : Effect → Bool
  | .print _ => true
  | .printLocations _ => true
  | .printSetting _ => true
  | .dialog _ => true
  | _ => false

/-- A computation producing a trace of host effects and either a value
or a raised Python exception. -/
def EffM (α : Type) : Type := List Effect × Except String α

instance : Monad EffM where
  pure a := ([], .ok a)
  bind x f :=
    match x with
    | (es, .error e) => (es, .error e)
    | (es, .ok a) => let (es2, r) := f a; (es ++ es2, r)

/-- Record one effect. -/
def tellEff (e : Effect) : EffM Unit := ([e], .ok ())

/-- Record a list of effects. -/
def tellEffs (es : List Effect) : EffM Unit := (es, .ok ())

/-- Raise an exception without further effects. -/
def throwEff {α : Type} (e : String) : EffM α := ([], .error e)

/-- Lift an exception-only computation. -/
def liftE {α : Type} (x : Except String α) : EffM α := ([], x)

/-! ### Pattern validation and the substitution engine -/

/-- Python `str()` of a value (strings print bare, everything else via
its repr). -/
def pyStr : Val → String
  | .str s => s
  | v => reprStr v

/-- The dialog text of `get_replace_pattern`'s warning. -/
def patternWarnMsg (rp : Val) (err : String) : String :=
  "[Warning] Replace pattern " ++ pyStr rp ++ " doesn\x27t seem to work: " ++ err

/-- The sanity check `replace_pattern % "test"`: a non-string pattern or
an invalid format string raises. -/
def validatePattern (rp : Val) : Except String String :=
  match rp with
  | .str s => match pyFmt s "test" with
    | .ok _ => .ok s
    | .error e => .error e
  | _ => .error "TypeError: unsupported operand types for %"

/-- `get_replace_pattern`: on failure show a warning dialog and re-raise. -/
def get_replace_pattern (template_format : Dict) : EffM String :=
  let rp := dictGetD template_format "replace_pattern" .none
  match validatePattern rp with
  | .ok s => pure s
  | .error e => do
    tellEff (.dialog (patternWarnMsg rp e))
    throwEff e

/-- `get_window_variables`: window variables and the project-variable
name map, when enabled for this format and supported by the host. -/
def get_window_variables (template_format : Dict) (ms : MergedSettings)
    (hasExtract : Bool) (winVars : List (String × String)) :
    Except String (List (String × String) × Dict) :=
  if pyTruthy (get_template_setting template_format ms "enable_project_variables" (.bool false))
      ∧ hasExtract then do
    let pv ← asDict (get_template_setting template_format ms "project_variables" (.dict []))
    pure (winVars, pv)
  else
    pure ([], [])

/-- One step of the attribute loop:
`line.replace(pattern % key, attr.get(key, ''))`. -/
def subAttrStep (pattern : String) (attr : Dict) (l : List Char) (kv : String × Val) :
    Except String (List Char) := do
  let tok ← pyFmt pattern kv.1
  let rep ← asStr (dictGetD attr kv.1 (.str ""))
  pure (replaceAll l tok.data rep.data)

/-- The attribute loop of `create_from_template` over one line. -/
def subAttrLine (pattern : String) (attr : Dict) (line : List Char) :
    Except String (List Char) :=
  attr.foldlM (subAttrStep pattern attr) line

/-- One step of the project-variable loop:
`line.replace(pattern % project_variables[key], win_variables.get(key, ''))`. -/
def subProjStep (pattern : String) (winVars : List (String × String)) (l : List Char)
    (kv : String × Val) : Except String (List Char) := do
  let pv ← asStr kv.2
  let tok ← pyFmt pattern pv
  let rep := ((winVars.lookup kv.1).getD "")
  pure (replaceAll l tok.data rep.data)

/-- The project-variable loop of `create_from_template` over one line. -/
def subProjLine (pattern : String) (winVars : List (String × String)) (projVars : Dict)
    (line : List Char) : Except String (List Char) :=
  projVars.foldlM (subProjStep pattern winVars) line

/-- One line of `create_from_template`: substitute every attribute
token, then every project-variable token, then apply the `${%s}`
escaping rule, then strip carriage returns. -/
def createLine (pattern : String) (attr : Dict) (winVars : List (String × String))
    (projVars : Dict) (line : List Char) : Except String (List Char) := do
  let l1 ← subAttrLine pattern attr line
  let l2 ←
    if winVars.isEmpty then pure l1
    else subProjLine pattern winVars projVars l1
  let l3 := if pattern = "${%s}" then escDollar Option.none l2 else l2
  pure (replaceAll l3 ['\r'] [])

/-- `create_from_template`: process every line of the source stream;
the returned list is the sequence of strings written to `dest`. -/
def create_from_template (pattern : String) (attr : Dict) (winVars : List (String × String))
    (projVars : Dict) (src : List (List Char)) : Except String (List (List Char)) :=
  src.mapM (createLine pattern attr winVars projVars)

example :
    create_from_template "{{%s}}" [("name", .str "Foo")] [] [] ["Hello {{name}}!".data] =
      .ok ["Hello Foo!".data] := by rfl

example :
    create_from_template "${%s}" [("name", .str "Foo")] [] [] ["${foo}".data] =
      .ok ["\\${foo}".data] := by rfl

example :
    create_from_template "${%s}" [("name", .str "Foo")] [] [] ["${name}".data] =
      .ok ["Foo".data] := by rfl

/-! ### Host environment -/

/-- The parts of the host the commands consult: working directory,
packages path, packaged resources, the filesystem, the current time
(as the result of `strftime`), and window variables. -/
structure Env where
  cwd : String
  packagesPath : String
  resources : List (String × String)
  files : List (String × String)
  dirs : List String
  strftimeNow : String → String
  hasExtract : Bool
  winVars : List (String × String)

/-! ### Single-file generator (`SublimeTmplCommand`) -/

/-- The upward walk of `process_template`: starting from the template's
parent directory, find the first ancestor registered in the location
map.  The fuel only bounds the `dirname` iteration; `start.length + 1`
always suffices because `dirname` strictly shortens a path until its
fixpoint. -/
def walkUpAux (locs : VDict) : Nat → String → Option Val
  | 0, _ => Option.none
  | f + 1, parent =>
    match vdictGet? locs (.str parent) with
    | some v => some v
    | Option.none =>
      let next := posixDirname parent
      if next = parent then Option.none else walkUpAux locs f next

/-- Find the owning template format of a template path by walking up
through its ancestor directories. -/
def walkUpFmt (locs : VDict) (start : String) : Option Val :=
  walkUpAux locs (start.length + 1) start

/-- The chain of directories visited by the upward walk, nearest first. -/
def dirChainAux : Nat → String → List String
  | 0, _ => []
  | f + 1, parent =>
    let next := posixDirname parent
    parent :: (if next = parent then [] else dirChainAux f next)

/-- All ancestor directories scanned from a starting directory, nearest
first, ending at the `dirname` fixpoint. -/
def dirChain (start : String) : List String :=
  dirChainAux (start.length + 1) start

/-- `SublimeTmplCommand.is_resource_path`. -/
def is_resource_path (env : Env) (path : String) : Bool :=
  commonPrefix2 path.data env.packagesPath.data = env.packagesPath.data

/-- `SublimeTmplCommand.format_as_resource_path`. -/
def format_as_resource_path (env : Env) (path : String) : String :=
  posixJoin "Packages" [posixRelpath env.cwd path env.packagesPath]

/-- `SublimeTmplCommand.format_tag`: validate the pattern, build the
attribute map (with the computed date), fetch window variables, and run
the substitution engine over the template contents. -/
def format_tag (env : Env) (ms : MergedSettings) (code : String) (template_format : Dict) :
    EffM String := do
  let pattern ← get_replace_pattern template_format
  let attr0 ← liftE (get_attr_setting template_format ms)
  let dateformatV := get_template_setting template_format ms "date_format" (.str "%Y-%m-%d")
  let dateformat ← liftE (asStr dateformatV)
  let attr := dictSet attr0 "date" (.str (env.strftimeNow dateformat))
  let wv ← liftE (get_window_variables template_format ms env.hasExtract env.winVars)
  let written ← liftE (create_from_template pattern attr wv.1 wv.2 (splitLinesKeep code.data))
  pure (String.join (written.map String.mk))

/-- `SublimeTmplCommand.get_code`: load the template text from a
packaged resource when the path lies under the packages root (falling
back to a filesystem read on resource failure — with the already
rewritten resource-style path), else from the filesystem; then run
`format_tag`. -/
def get_code (env : Env) (ms : MergedSettings) (template : String) (template_format : Dict) :
    EffM String := do
  if is_resource_path env template then do
    let rp := format_as_resource_path env template
    tellEff (.loadResource rp)
    match env.resources.lookup rp with
    | some contents => format_tag env ms contents template_format
    | Option.none => do
      tellEff (.readFile rp)
      match env.files.lookup rp with
      | some contents => format_tag env ms contents template_format
      | Option.none => throwEff "IOError: file not found"
  else do
    tellEff (.readFile template)
    match env.files.lookup template with
    | some contents => format_tag env ms contents template_format
    | Option.none => throwEff "IOError: file not found"

/-- `SublimeTmplCommand.create_tab`: open a new buffer, remember the
default directory, and stash the post-save substitution state when the
format enables it. -/
def create_tab (env : Env) (template_format : Dict) (paths : List String) : EffM Unit := do
  tellEff .newFile
  match paths with
  | [p] => tellEff (.setSetting "default_dir" (.str p))
  | _ => pure ()
  if pyTruthy (dictGetD template_format "enable_file_variables_on_save" (.bool false)) then do
    let p ← get_replace_pattern template_format
    tellEff (.setSetting "tmpl_replace_pattern" (.str p))
    tellEff (.setSetting "tmpl_file_variables_on_save"
      (dictGetD template_format "file_variables_on_save" (.dict [])))
  else
    pure ()

/-- The dialog shown when no registered location owns the template. -/
def noValidTemplateMsg : String := "No valid templates found"

/-- `SublimeTmplCommand.process_template`. -/
def process_template (env : Env) (ms : MergedSettings) (locs : VDict)
    (template : String) (dirs : List String) : EffM Unit := do
  let template_path := posixAbspath env.cwd template
  match walkUpFmt locs (posixDirname template_path) with
  | Option.none => tellEff (.dialog noValidTemplateMsg)
  | some fmtV => do
    let template_format ← liftE (asDict fmtV)
    let tmpl ← get_code env ms template template_format
    create_tab env template_format dirs
    let basefile := (posixSplitext (posixBasename template)).1
    let (base, ext0) := posixSplitext basefile
    let ext1 := if ext0 = "" then base else ext0
    let ext := if ext1.data.take 1 = ['.'] then String.mk (ext1.data.drop 1) else ext1
    tellEff (.setSetting "default_extension" (.str ext))
    tellEff (.printSetting "syntax")
    tellEff (.insertSnippet tmpl)

/-- `SublimeTmplCommand.run`: resolve settings and locations, then
process the chosen template. -/
def sublimeTmplRun (env : Env) (ms : MergedSettings) (template : String)
    (dirs : List String) (filterBy : String) : EffM Unit := do
  let r ← liftE (get_template_locations env.packagesPath ms filterBy)
  tellEffs (r.2.map Effect.print)
  process_template env ms r.1 template dirs

/-! ### Directory generator (`SublimeTmplDirectoryCommand`) -/

/-- Does a directory exist, counting directories created so far? -/
def isDirOn (env : Env) (created : List String) (p : String) : Bool :=
  env.dirs.contains p || created.contains p

/-- One level of `os.walk`: names of the subdirectories and files
directly under `top`. -/
def walkChildren (env : Env) (top : String) : List String × List String :=
  ((env.dirs.filter (fun d => posixDirname d == top)).map posixBasename,
   (env.files.filter (fun f => posixDirname f.1 == top)).map (fun f => posixBasename f.1))

/-- Top-down `os.walk` over the modelled filesystem; the fuel bounds
the recursion depth (`env.dirs.length + 1` always suffices for a
well-formed directory list). -/
def walkFS (env : Env) : Nat → String → List (String × List String × List String)
  | 0, _ => []
  | f + 1, top =>
    if isDirOn env [] top then
      let (dnames, fnames) := walkChildren env top
      (top, dnames, fnames) :: (dnames.map (fun d => walkFS env f (posixJoin2 top d))).flatten
    else []

/-- Console message of the directory command when the template's parent
folder is not a key of the resolved location map. -/
def cantFindLocationMsg (tfid : String) : String :=
  "Can\x27t find valid template location or associated format " ++ tfid

/-- Copy the files of one walked directory, substituting file contents
and filename tokens. -/
def copyFiles (env : Env) (pattern : String) (attr : Dict)
    (winVars : List (String × String)) (projVars : Dict)
    (file_pattern name output_dir relativepath dirpath : String) :
    List String → EffM Unit
  | [] => pure ()
  | filename :: rest => do
    let output_filepath := posixJoin output_dir [relativepath, strReplace filename file_pattern name]
    let src_filepath := posixJoin2 dirpath filename
    tellEff (.readFile src_filepath)
    match env.files.lookup src_filepath with
    | Option.none => throwEff "IOError: file not found"
    | some contents => do
      let written ← liftE (create_from_template pattern attr winVars projVars
        (splitLinesKeep contents.data))
      tellEff (.writeFile output_filepath (String.join (written.map String.mk)))
      copyFiles env pattern attr winVars projVars file_pattern name output_dir relativepath dirpath rest

/-- Create the destination child directories of one walked directory,
tracking which directories already exist. -/
def makeChildDirs (env : Env) (file_pattern name output_dir : String) :
    List String → List String → EffM (List String)
  | [], created => pure created
  | dirname :: rest, created => do
    let output_curdir := posixJoin2 output_dir (strReplace dirname file_pattern name)
    if ¬isDirOn env created output_curdir then do
      tellEff (.makedirs output_curdir)
      makeChildDirs env file_pattern name output_dir rest (created ++ [output_curdir])
    else
      makeChildDirs env file_pattern name output_dir rest created

/-- The walk-and-copy loop of `SublimeTmplDirectoryCommand.run`. -/
def copyWalk (env : Env) (pattern : String) (attr : Dict)
    (winVars : List (String × String)) (projVars : Dict)
    (file_pattern name output_dir template_path : String) :
    List (String × List String × List String) → List String → EffM Unit
  | [], _ => pure ()
  | (dirpath, dirnames, filenames) :: rest, created => do
    let relativepath := posixRelpath env.cwd (strReplace dirpath file_pattern name) template_path
    copyFiles env pattern attr winVars projVars file_pattern name output_dir relativepath dirpath filenames
    let created2 ← makeChildDirs env file_pattern name output_dir dirnames created
    copyWalk env pattern attr winVars projVars file_pattern name output_dir template_path rest created2

/-- `SublimeTmplDirectoryCommand.run`. -/
def runDirectory (env : Env) (ms : MergedSettings) (template name output_dir : String)
    (dirs : List String) (filterBy : String) : EffM Unit := do
  let r ← liftE (get_template_locations env.packagesPath ms filterBy)
  tellEffs (r.2.map Effect.print)
  let locations := r.1
  let template_path := posixAbspath env.cwd template
  let template_format_id := posixDirname template_path
  if ¬vdictMem locations (.str template_format_id) then do
    tellEff (.print (cantFindLocationMsg template_format_id))
    tellEff (.printLocations locations)
  else
    pure ()
  let fmtV ← match vdictGet? locations (.str template_format_id) with
    | some v => pure v
    | Option.none => throwEff "KeyError"
  let template_format ← liftE (asDict fmtV)
  let fp0 ← liftE (asStr (dictGetD template_format "filename_replace_pattern" (.str "")))
  let file_pattern := strReplace fp0 "%s" "name"
  let pattern ← get_replace_pattern template_format
  let attr0 ← liftE (get_attr_setting template_format ms)
  let dateformatV := get_template_setting template_format ms "date_format" (.str "%Y-%m-%d")
  let attr1 := dictSet attr0 "name" (.str name)
  let dateformat ← liftE (asStr dateformatV)
  let attr := dictSet attr1 "date" (.str (env.strftimeNow dateformat))
  let wv ← liftE (get_window_variables template_format ms env.hasExtract env.winVars)
  let created0 : List String ←
    if ¬isDirOn env [] output_dir then do
      tellEff (.makedirs output_dir)
      pure [output_dir]
    else
      pure []
  copyWalk env pattern attr wv.1 wv.2 file_pattern name output_dir template_path
    (walkFS env (env.dirs.length + 1) template_path) created0

/-! ## Claim theorems -/

/-- C10: `get(name, default, merge)` with `merge = true` but `default =
None` performs no list concatenation and behaves exactly like a
non-merge lookup: project value if present, else global value, else
`None`. -/
theorem claimC10_merge_with_none_default_is_plain_lookup :
    ∀ (ms : MergedSettings) (name : String),
      ms.get name Val.none true = ms.get name Val.none false ∧
      ms.get name Val.none true =
        .ok (dictGetD ms.project_settings name (ms.get_global name Val.none)) := by
  intro ms name
  constructor <;> simp [MergedSettings.get, isNoneVal]

/-- C6 (counterexample): with `merge = true` but `default = None`, the
merge branch is skipped: project `template_locations = [{folders:["/p"]}]`
and global `template_locations = [{folders:["/g"]}]` yield only the
project list, not the claimed concatenation. -/
theorem claimC6_counterexample :
    MergedSettings.get
      ⟨[("template_locations", Val.list [Val.dict [("folders", Val.list [Val.str "/g"])]])],
       [("template_locations", Val.list [Val.dict [("folders", Val.list [Val.str "/p"])]])]⟩
      "template_locations" Val.none true =
      .ok (Val.list [Val.dict [("folders", Val.list [Val.str "/p"])]]) ∧
    Val.list [Val.dict [("folders", Val.list [Val.str "/p"])]] ≠
      Val.list [Val.dict [("folders", Val.list [Val.str "/p"])],
                Val.dict [("folders", Val.list [Val.str "/g"])]] := by
  refine ⟨by rfl, ?_⟩
  intro h
  have hl := congrArg (fun v => match v with | Val.list l => l.length | _ => 0) h
  simp at hl

/-- C6 (amended): when `merge` is true *and the supplied default is not
`None`*, `get` returns the project-level list (or `[]`) concatenated
with the global resolution, project entries first; when `merge` is
false it returns project value if present, else global, else default. -/
theorem claimC6_settings_get_branches :
    (∀ (glob proj : Dict) (name : String) (default : Val) (pl gl : List Val),
        isNoneVal default = false →
        dictGetD proj name (.list []) = .list pl →
        MergedSettings.get_global ⟨glob, proj⟩ name default = .list gl →
        MergedSettings.get ⟨glob, proj⟩ name default true = .ok (.list (pl ++ gl))) ∧
    (∀ (glob proj : Dict) (name : String) (default : Val),
        MergedSettings.get ⟨glob, proj⟩ name default false =
          .ok (dictGetD proj name (MergedSettings.get_global ⟨glob, proj⟩ name default))) := by
  constructor
  · intro glob proj name default pl gl hd hp hg
    unfold MergedSettings.get
    rw [if_pos (by simp [hd])]
    show pyAdd (dictGetD proj name (.list [])) (MergedSettings.get_global ⟨glob, proj⟩ name default) = _
    rw [hp, hg]
    rfl
  · intro glob proj name default
    unfold MergedSettings.get
    rw [if_neg (by simp)]

/-- C6 (witness): the spec's own example, global
`template_locations=[{folders:["/g"]}]`, project
`template_locations=[{folders:["/p"]}]`, `merge=true`, default `[]`:
project entries precede global ones. -/
theorem claimC6_witness :
    MergedSettings.get
      ⟨[("template_locations", Val.list [Val.dict [("folders", Val.list [Val.str "/g"])]])],
       [("template_locations", Val.list [Val.dict [("folders", Val.list [Val.str "/p"])]])]⟩
      "template_locations" (Val.list []) true =
      .ok (Val.list [Val.dict [("folders", Val.list [Val.str "/p"])],
                     Val.dict [("folders", Val.list [Val.str "/g"])]]) :=
  claimC6_settings_get_branches.1 _ _ "template_locations" (Val.list [])
    [Val.dict [("folders", Val.list [Val.str "/p"])]]
    [Val.dict [("folders", Val.list [Val.str "/g"])]]
    (by rfl) (by rfl) (by rfl)

/-- C1: evaluating `get_template_locations` at two location descriptors
that both claim folder `"/g"`.  Because the source guards the
assignment with `folder not in location` (membership in the descriptor
dict, not in the accumulated map), the *second* descriptor's format
overwrites the first — the folder ends up mapped to format `y`, not to
the first-claiming format `x`. -/
theorem claimC1_later_descriptor_overwrites :
    get_template_locations "/pk"
      ⟨[("template_formats", Val.list
          [Val.dict [("id", Val.str "x"),
                     ("format", Val.dict [("replace_pattern", Val.str "{{%s}}")])],
           Val.dict [("id", Val.str "y"),
                     ("format", Val.dict [("replace_pattern", Val.str "<<%s>>")])]]),
        ("template_locations", Val.list
          [Val.dict [("format", Val.str "x"), ("folders", Val.list [Val.str "/g"])],
           Val.dict [("format", Val.str "y"), ("folders", Val.list [Val.str "/g"])]])], []⟩
      "all" =
      .ok ([(Val.str "/g", Val.dict [("replace_pattern", Val.str "<<%s>>")])], []) ∧
    Val.dict [("replace_pattern", Val.str "<<%s>>")] ≠
      Val.dict [("replace_pattern", Val.str "{{%s}}")] := by
  refine ⟨by rfl, ?_⟩
  intro h
  have hs := congrArg (fun v => match v with
    | Val.dict ((_, Val.str s) :: _) => s
    | _ => "") h
  exact absurd hs (by decide)

/-! ### C9: malformed registry entries -/

theorem exceptBind_ok {α β : Type} (a : α) (f : α → Except String β) :
    (Except.ok a >>= f) = f a := rfl

theorem exceptBind_err {α β : Type} (e : String) (f : α → Except String β) :
    ((Except.error e : Except String α) >>= f) = .error e := rfl

/-- A format descriptor the registry must drop: missing `id`, missing
`format`, or a `format` dict without `replace_pattern`. -/
def malformedFormatEntry (bad : Dict) : Prop :=
  dictHasKey bad "id" = false ∨ dictHasKey bad "format" = false ∨
  (∃ c : Dict, dictGet? bad "format" = some (.dict c) ∧ dictHasKey c "replace_pattern" = false)

/-- The log line the format loop emits when dropping `bad`. -/
def fmtSkipMsgOf (bad : Dict) : String :=
  if dictHasKey bad "id" = false ∨ dictHasKey bad "format" = false then
    skipFormatMsg (.dict bad)
  else skipPatternMsg (dictGetD bad "id" .none)

/-- A location descriptor the registry must drop: missing `format` or
referencing an unregistered format id. -/
def malformedLocationEntry (validFormats : VDict) (bad : Dict) : Prop :=
  dictHasKey bad "format" = false ∨
  vdictGet? validFormats (dictGetD bad "format" .none) = Option.none

/-- The log line the location loop emits when dropping `bad`. -/
def locSkipMsgOf (bad : Dict) : String :=
  if dictHasKey bad "format" = false then skipLocationMsg (.dict bad)
  else skipUnknownFormatMsg (.dict bad) (dictGetD bad "format" .none)

/-- Dropping a malformed format entry at the head: state unchanged,
one log line appended. -/
theorem processFormats_skip_head (rest : List Val) (vf : VDict) (logs : List String)
    (bad : Dict) (h : malformedFormatEntry bad) :
    processFormats (Val.dict bad :: rest) vf logs =
      processFormats rest vf (logs ++ [fmtSkipMsgOf bad]) := by
  cases hid : dictHasKey bad "id" with
  | false =>
    simp only [processFormats, pyIn, hid, exceptBind_ok]
    simp [fmtSkipMsgOf, hid]
  | true =>
    cases hfmt : dictHasKey bad "format" with
    | false =>
      simp only [processFormats, pyIn, hid, hfmt, exceptBind_ok]
      simp [fmtSkipMsgOf, hid, hfmt]
    | true =>
      rcases h with h | h | ⟨c, hc, hcp⟩
      · rw [hid] at h; exact absurd h (by simp)
      · rw [hfmt] at h; exact absurd h (by simp)
      · have hcd : dictGetD bad "format" Val.none = Val.dict c := by
          simp [dictGetD, hc]
        simp only [processFormats, pyIn, hid, hfmt, exceptBind_ok, asDict, hcd]
        simp [fmtSkipMsgOf, hid, hfmt, hcp]

/-- Dropping a malformed location entry at the head: state unchanged,
one log line appended. -/
theorem processLocations_skip_head (validFormats : VDict) (defLoc : Val) (rest : List Val)
    (locs : VDict) (logs : List String) (bad : Dict)
    (h : malformedLocationEntry validFormats bad) :
    processLocations validFormats defLoc (Val.dict bad :: rest) locs logs =
      processLocations validFormats defLoc rest locs (logs ++ [locSkipMsgOf bad]) := by
  cases hfmt : dictHasKey bad "format" with
  | false =>
    simp only [processLocations, pyIn, hfmt, exceptBind_ok]
    simp [locSkipMsgOf, hfmt]
  | true =>
    rcases h with h | h
    · rw [hfmt] at h; exact absurd h (by simp)
    · simp only [processLocations, pyIn, hfmt, exceptBind_ok, asDict, h]
      simp [locSkipMsgOf, hfmt]

/-- Processing a concatenation of format entries decomposes. -/
theorem processFormats_append (l1 l2 : List Val) (vf : VDict) (logs : List String) :
    processFormats (l1 ++ l2) vf logs =
      (processFormats l1 vf logs).bind (fun r => processFormats l2 r.1 r.2) := by
  induction l1 generalizing vf logs with
  | nil => rfl
  | cons tf rest ih =>
    simp only [List.cons_append, processFormats]
    cases hi : pyIn "id" tf with
    | error e => rfl
    | ok hasId =>
      simp only [exceptBind_ok]
      cases hasId with
      | false => exact ih vf _
      | true =>
        simp only [Bool.not_true, Bool.false_eq_true, if_false]
        cases hf : pyIn "format" tf with
        | error e => rfl
        | ok hasFmt =>
          simp only [exceptBind_ok]
          cases hasFmt with
          | false => exact ih vf _
          | true =>
            simp only [Bool.not_true, Bool.false_eq_true, if_false]
            cases hd : asDict tf with
            | error e => rfl
            | ok tfd =>
              simp only [exceptBind_ok]
              cases hp : pyIn "replace_pattern" (dictGetD tfd "format" Val.none) with
              | error e => rfl
              | ok hasPat =>
                simp only [exceptBind_ok]
                cases hasPat with
                | false => exact ih vf _
                | true =>
                  simp only [Bool.not_true, Bool.false_eq_true, if_false]
                  by_cases hm : vdictMem vf (dictGetD tfd "id" Val.none) = true
                  · simp only [hm, Bool.not_true, Bool.false_eq_true, if_false]
                    exact ih vf logs
                  · simp only [Bool.not_eq_true] at hm
                    simp only [hm, Bool.not_false, if_pos]
                    exact ih _ logs

/-- Processing a concatenation of location entries decomposes. -/
theorem processLocations_append (validFormats : VDict) (defLoc : Val) (l1 l2 : List Val)
    (locs : VDict) (logs : List String) :
    processLocations validFormats defLoc (l1 ++ l2) locs logs =
      (processLocations validFormats defLoc l1 locs logs).bind
        (fun r => processLocations validFormats defLoc l2 r.1 r.2) := by
  induction l1 generalizing locs logs with
  | nil => rfl
  | cons loc rest ih =>
    simp only [List.cons_append, processLocations]
    cases hi : pyIn "format" loc with
    | error e => rfl
    | ok hasFmt =>
      simp only [exceptBind_ok]
      cases hasFmt with
      | false => exact ih locs _
      | true =>
        simp only [Bool.not_true, Bool.false_eq_true, if_false]
        cases hd : asDict loc with
        | error e => rfl
        | ok locd =>
          simp only [exceptBind_ok]
          cases hg : vdictGet? validFormats (dictGetD locd "format" Val.none) with
          | none => exact ih locs _
          | some contents => exact ih _ logs

/-- The resolved format map does not depend on the log accumulator. -/
theorem processFormats_logs_fst (entries : List Val) :
    ∀ (vf : VDict) (l1 l2 : List String),
      (processFormats entries vf l1).map Prod.fst =
        (processFormats entries vf l2).map Prod.fst := by
  induction entries with
  | nil => intro vf l1 l2; rfl
  | cons tf rest ih =>
    intro vf l1 l2
    simp only [processFormats]
    cases hi : pyIn "id" tf with
    | error e => rfl
    | ok hasId =>
      simp only [exceptBind_ok]
      cases hasId with
      | false => exact ih vf _ _
      | true =>
        simp only [Bool.not_true, Bool.false_eq_true, if_false]
        cases hf : pyIn "format" tf with
        | error e => rfl
        | ok hasFmt =>
          simp only [exceptBind_ok]
          cases hasFmt with
          | false => exact ih vf _ _
          | true =>
            simp only [Bool.not_true, Bool.false_eq_true, if_false]
            cases hd : asDict tf with
            | error e => rfl
            | ok tfd =>
              simp only [exceptBind_ok]
              cases hp : pyIn "replace_pattern" (dictGetD tfd "format" Val.none) with
              | error e => rfl
              | ok hasPat =>
                simp only [exceptBind_ok]
                cases hasPat with
                | false => exact ih vf _ _
                | true =>
                  simp only [Bool.not_true, Bool.false_eq_true, if_false]
                  by_cases hm : vdictMem vf (dictGetD tfd "id" Val.none) = true
                  · simp only [hm, Bool.not_true, Bool.false_eq_true, if_false]
                    exact ih vf l1 l2
                  · simp only [Bool.not_eq_true] at hm
                    simp only [hm, Bool.not_false, if_pos]
                    exact ih _ l1 l2

/-- The resolved location map does not depend on the log accumulator. -/
theorem processLocations_logs_fst (validFormats : VDict) (defLoc : Val) (entries : List Val) :
    ∀ (locs : VDict) (l1 l2 : List String),
      (processLocations validFormats defLoc entries locs l1).map Prod.fst =
        (processLocations validFormats defLoc entries locs l2).map Prod.fst := by
  induction entries with
  | nil => intro locs l1 l2; rfl
  | cons loc rest ih =>
    intro locs l1 l2
    simp only [processLocations]
    cases hi : pyIn "format" loc with
    | error e => rfl
    | ok hasFmt =>
      simp only [exceptBind_ok]
      cases hasFmt with
      | false => exact ih locs _ _
      | true =>
        simp only [Bool.not_true, Bool.false_eq_true, if_false]
        cases hd : asDict loc with
        | error e => rfl
        | ok locd =>
          simp only [exceptBind_ok]
          cases hg : vdictGet? validFormats (dictGetD locd "format" Val.none) with
          | none => exact ih locs _ _
          | some contents => exact ih _ l1 l2

/-- C9: a format entry missing `id` or `format` or whose `format` lacks
`replace_pattern`, and a location entry missing `format` or referencing
an unregistered format id, contributes nothing to the resolved maps: it
is skipped with exactly one log line, and the processing of all sibling
entries continues from an unchanged registry state, so the resolved map
equals the map for the same list without the bad entry. -/
theorem claimC9_malformed_entries_skipped :
    (∀ (pre post : List Val) (vf : VDict) (logs : List String) (bad : Dict),
        malformedFormatEntry bad →
        processFormats (pre ++ Val.dict bad :: post) vf logs =
          (processFormats pre vf logs).bind
            (fun r => processFormats post r.1 (r.2 ++ [fmtSkipMsgOf bad])) ∧
        (processFormats (pre ++ Val.dict bad :: post) vf logs).map Prod.fst =
          (processFormats (pre ++ post) vf logs).map Prod.fst) ∧
    (∀ (validFormats : VDict) (defLoc : Val) (pre post : List Val) (locs : VDict)
        (logs : List String) (bad : Dict),
        malformedLocationEntry validFormats bad →
        processLocations validFormats defLoc (pre ++ Val.dict bad :: post) locs logs =
          (processLocations validFormats defLoc pre locs logs).bind
            (fun r => processLocations validFormats defLoc post r.1 (r.2 ++ [locSkipMsgOf bad])) ∧
        (processLocations validFormats defLoc (pre ++ Val.dict bad :: post) locs logs).map Prod.fst =
          (processLocations validFormats defLoc (pre ++ post) locs logs).map Prod.fst) := by
  constructor
  · intro pre post vf logs bad hmal
    have h1 : processFormats (pre ++ Val.dict bad :: post) vf logs =
        (processFormats pre vf logs).bind
          (fun r => processFormats post r.1 (r.2 ++ [fmtSkipMsgOf bad])) := by
      rw [processFormats_append]
      congr 1
      funext r
      exact processFormats_skip_head post r.1 r.2 bad hmal
    refine ⟨h1, ?_⟩
    rw [h1, processFormats_append]
    cases hx : processFormats pre vf logs with
    | error e => rfl
    | ok r => exact processFormats_logs_fst post r.1 _ _
  · intro validFormats defLoc pre post locs logs bad hmal
    have h1 : processLocations validFormats defLoc (pre ++ Val.dict bad :: post) locs logs =
        (processLocations validFormats defLoc pre locs logs).bind
          (fun r => processLocations validFormats defLoc post r.1 (r.2 ++ [locSkipMsgOf bad])) := by
      rw [processLocations_append]
      congr 1
      funext r
      exact processLocations_skip_head validFormats defLoc post r.1 r.2 bad hmal
    refine ⟨h1, ?_⟩
    rw [h1, processLocations_append]
    cases hx : processLocations validFormats defLoc pre locs logs with
    | error e => rfl
    | ok r => exact processLocations_logs_fst validFormats defLoc post r.1 _ _

/-- C9 (witness): a format entry with no `id` is skipped with its log
line while the valid sibling that follows it is still registered. -/
theorem claimC9_witness :
    processFormats
        [Val.dict [("format", Val.dict [])],
         Val.dict [("id", Val.str "x"),
                   ("format", Val.dict [("replace_pattern", Val.str "{{%s}}")])]] [] [] =
      (processFormats [] [] []).bind
        (fun r => processFormats
          [Val.dict [("id", Val.str "x"),
                     ("format", Val.dict [("replace_pattern", Val.str "{{%s}}")])]]
          r.1 (r.2 ++ [fmtSkipMsgOf [("format", Val.dict [])]])) ∧
    (processFormats
        [Val.dict [("format", Val.dict [])],
         Val.dict [("id", Val.str "x"),
                   ("format", Val.dict [("replace_pattern", Val.str "{{%s}}")])]] [] []).map Prod.fst =
      (processFormats
        [Val.dict [("id", Val.str "x"),
                   ("format", Val.dict [("replace_pattern", Val.str "{{%s}}")])]] [] []).map Prod.fst :=
  claimC9_malformed_entries_skipped.1 []
    [Val.dict [("id", Val.str "x"), ("format", Val.dict [("replace_pattern", Val.str "{{%s}}")])]]
    [] [] [("format", Val.dict [])] (Or.inl (by rfl))

/-! ### Properties of `replaceAll` -/

/-- Characters of a replacement result come from the text or the
replacement value. -/
theorem mem_replaceAll (t v : List Char) (ht : t ≠ []) :
    ∀ (n : Nat) (s : List Char), s.length ≤ n →
      ∀ c, c ∈ replaceAll s t v → c ∈ s ∨ c ∈ v := by
  intro n
  induction n with
  | zero =>
    intro s hs c hc
    have : s = [] := List.eq_nil_of_length_eq_zero (Nat.le_zero.mp hs)
    subst this
    rw [replaceAll_nil t v ht] at hc
    simp at hc
  | succ n ih =>
    intro s hs c hc
    match s with
    | [] =>
      rw [replaceAll_nil t v ht] at hc
      simp at hc
    | d :: s2 =>
      rw [replaceAll_cons t v d s2 ht] at hc
      by_cases hp : t.isPrefixOf (d :: s2) = true
      · rw [if_pos hp] at hc
        rcases List.mem_append.mp hc with h | h
        · exact Or.inr h
        · have hd : (List.drop t.length (d :: s2)).length ≤ n := by
            have : 0 < t.length := List.length_pos.mpr ht
            simp only [List.length_drop, List.length_cons]
            simp only [List.length_cons] at hs
            omega
          rcases ih _ hd c h with h2 | h2
          · exact Or.inl (List.mem_of_mem_drop h2)
          · exact Or.inr h2
      · rw [if_neg hp] at hc
        rcases List.mem_cons.mp hc with h | h
        · exact Or.inl (h ▸ List.mem_cons_self d s2)
        · have h2 : s2.length ≤ n := by simp only [List.length_cons] at hs; omega
          rcases ih s2 h2 c h with h3 | h3
          · exact Or.inl (List.mem_cons_of_mem d h3)
          · exact Or.inr h3

/-- If the token does not occur in the text, replacement is a no-op. -/
theorem replaceAll_noop (t v : List Char) (ht : t ≠ []) :
    ∀ (s : List Char), ¬ t <:+: s → replaceAll s t v = s := by
  intro s
  induction s with
  | nil => intro _; exact replaceAll_nil t v ht
  | cons c s2 ih =>
    intro hni
    rw [replaceAll_cons t v c s2 ht]
    have hp : ¬ t.isPrefixOf (c :: s2) = true := by
      intro hp
      exact hni (List.IsPrefix.isInfix (List.isPrefixOf_iff_prefix.mp hp))
    rw [if_neg hp]
    rw [ih (fun h => hni (List.infix_cons_iff.mpr (Or.inr h)))]

/-- A one-character token occurs as an infix iff the character occurs. -/
theorem singleton_infix_iff_mem (c : Char) (l : List Char) : [c] <:+: l ↔ c ∈ l := by
  constructor
  · rintro ⟨pre, post, h⟩
    subst h
    simp
  · intro hm
    induction l with
    | nil => simp at hm
    | cons d l2 ih =>
      rcases List.mem_cons.mp hm with h | h
      · subst h
        exact List.IsPrefix.isInfix ⟨l2, rfl⟩
      · exact List.infix_cons_iff.mpr (Or.inr (ih h))

/-- `joinWith` with a part list headed by a cons. -/
theorem joinWith_cons_head (sep : List Char) (c : Char) (p0 : List Char)
    (ps : List (List Char)) :
    joinWith sep ((c :: p0) :: ps) = c :: joinWith sep (p0 :: ps) := by
  cases ps with
  | nil => rfl
  | cons q qs => simp [joinWith]

/-- The parts decomposition of Python `replace`: for a nonempty token
`t`, every text splits as parts joined by `t` where no part contains
`t`, and `replaceAll` joins exactly the same parts with the
replacement value: every occurrence is replaced. -/
theorem replaceAll_parts (t v : List Char) (ht : t ≠ []) :
    ∀ (n : Nat) (s : List Char), s.length ≤ n →
      ∃ parts : List (List Char), parts ≠ [] ∧
        s = joinWith t parts ∧ replaceAll s t v = joinWith v parts ∧
        ∀ p ∈ parts, ¬ t <:+: p := by
  intro n
  induction n with
  | zero =>
    intro s hs
    have : s = [] := List.eq_nil_of_length_eq_zero (Nat.le_zero.mp hs)
    subst this
    refine ⟨[[]], by simp, by simp [joinWith], by simp [joinWith, replaceAll_nil t v ht], ?_⟩
    intro p hp
    simp only [List.mem_singleton] at hp
    subst hp
    intro hinf
    exact ht (List.infix_nil.mp hinf)
  | succ n ih =>
    intro s hs
    match s with
    | [] =>
      refine ⟨[[]], by simp, by simp [joinWith], by simp [joinWith, replaceAll_nil t v ht], ?_⟩
      intro p hp
      simp only [List.mem_singleton] at hp
      subst hp
      intro hinf
      exact ht (List.infix_nil.mp hinf)
    | c :: s2 =>
      by_cases hp : t.isPrefixOf (c :: s2) = true
      · obtain ⟨u, hu⟩ := List.isPrefixOf_iff_prefix.mp hp
        have hdrop : List.drop t.length (c :: s2) = u := by
          rw [← hu]
          exact List.drop_left t u
        have hul : u.length ≤ n := by
          have htl : 0 < t.length := List.length_pos.mpr ht
          have : t.length + u.length = s2.length + 1 := by
            have := congrArg List.length hu
            simpa using this
          simp only [List.length_cons] at hs
          omega
        obtain ⟨parts2, hne, hjoin, hrep, hinf⟩ := ih u hul
        obtain ⟨q, qs, rfl⟩ := List.exists_cons_of_ne_nil hne
        refine ⟨[] :: q :: qs, by simp, ?_, ?_, ?_⟩
        · simp only [joinWith, List.nil_append]
          rw [← hjoin, hu]
        · rw [replaceAll_cons t v c s2 ht, if_pos hp, hdrop, hrep]
          simp [joinWith]
        · intro p hpp
          rcases List.mem_cons.mp hpp with h | h
          · subst h
            intro hinf2
            exact ht (List.infix_nil.mp hinf2)
          · exact hinf p h
      · have h2 : s2.length ≤ n := by simp only [List.length_cons] at hs; omega
        obtain ⟨parts2, hne, hjoin, hrep, hinf⟩ := ih s2 h2
        obtain ⟨p0, ps, rfl⟩ := List.exists_cons_of_ne_nil hne
        refine ⟨(c :: p0) :: ps, by simp, ?_, ?_, ?_⟩
        · rw [joinWith_cons_head, ← hjoin]
        · rw [replaceAll_cons t v c s2 ht, if_neg hp, hrep, joinWith_cons_head]
        · intro p hpp
          rcases List.mem_cons.mp hpp with h | h
          · subst h
            intro hinf2
            rcases List.infix_cons_iff.mp hinf2 with h3 | h3
            · -- t would be a prefix of the whole text
              have hpre : (c :: p0) <+: (c :: s2) := by
                have : c :: s2 = joinWith t ((c :: p0) :: ps) := by
                  rw [joinWith_cons_head, ← hjoin]
                rw [this]
                cases ps with
                | nil => exact List.prefix_refl _
                | cons q qs =>
                  simp only [joinWith]
                  exact ⟨t ++ joinWith t (q :: qs), by simp⟩
              have : t <+: (c :: s2) := h3.trans hpre
              exact hp (List.isPrefixOf_iff_prefix.mpr this)
            · exact hinf p0 (List.mem_cons_self p0 ps) h3
          · exact hinf p (List.mem_cons_of_mem p0 h)

/-- `createLine` with a single attribute binding, a delimiter other
than `${%s}` and no window variables is token replacement followed by
carriage-return stripping. -/
theorem createLine_single (P k v : String) (line : List Char) (tok : String)
    (hfmt : pyFmt P k = .ok tok) (hP : ¬P = "${%s}") :
    createLine P [(k, Val.str v)] [] [] line =
      .ok (replaceAll (replaceAll line tok.data v.data) ['\r'] []) := by
  simp only [createLine, subAttrLine, subAttrStep, List.foldlM, hfmt, exceptBind_ok,
    dictGetD, dictGet?, beq_self_eq_true, if_pos, Option.getD_some, asStr,
    List.isEmpty_nil, if_true, if_neg hP]
  rfl

/-- C5: for the substitution engine, every literal occurrence of
`pattern % key` in a line is replaced by the attribute's value: the
line splits into parts joined by the token, none containing the token,
and the engine's output joins the very same parts with the value.  The
second conjunct checks the spec's concrete example. -/
theorem claimC5_every_token_occurrence_replaced :
    (∀ (P k v : String) (line : List Char) (tok : String),
        pyFmt P k = .ok tok → tok.data ≠ [] → ¬P = "${%s}" →
        '\r' ∉ line → '\r' ∉ v.data →
        ∃ parts : List (List Char), parts ≠ [] ∧
          line = joinWith tok.data parts ∧
          (∀ p ∈ parts, ¬ tok.data <:+: p) ∧
          createLine P [(k, Val.str v)] [] [] line = .ok (joinWith v.data parts)) ∧
    create_from_template "{{%s}}" [("name", Val.str "Foo")] [] [] ["Hello {{name}}!".data] =
      .ok ["Hello Foo!".data] := by
  constructor
  · intro P k v line tok hfmt htok hP hrl hrv
    obtain ⟨parts, hne, hjoin, hrep, hinf⟩ :=
      replaceAll_parts tok.data v.data htok line.length line le_rfl
    refine ⟨parts, hne, hjoin, hinf, ?_⟩
    rw [createLine_single P k v line tok hfmt hP]
    have hnr : '\r' ∉ replaceAll line tok.data v.data := by
      intro hmem
      rcases mem_replaceAll tok.data v.data htok line.length line le_rfl '\r' hmem with h | h
      · exact hrl h
      · exact hrv h
    rw [replaceAll_noop ['\r'] [] (by simp) _
      (fun h => hnr ((singleton_infix_iff_mem '\r' _).mp h))]
    rw [hrep]
  · rfl

/-- C5 (witness): the spec example instantiated — `Hello {{name}}!`
with `{name: Foo}` and pattern `{{%s}}` splits around the token and is
rejoined with `Foo`. -/
theorem claimC5_witness :
    ∃ parts : List (List Char), parts ≠ [] ∧
      "Hello {{name}}!".data = joinWith "{{name}}".data parts ∧
      (∀ p ∈ parts, ¬ "{{name}}".data <:+: p) ∧
      createLine "{{%s}}" [("name", Val.str "Foo")] [] [] "Hello {{name}}!".data =
        .ok (joinWith "Foo".data parts) :=
  claimC5_every_token_occurrence_replaced.1 "{{%s}}" "name" "Foo" "Hello {{name}}!".data
    "{{name}}" (by rfl) (by decide) (by decide) (by decide) (by decide)

/-! ### Properties of the `${` escaping pass -/

/-- Unfolding `escDollar` on a cons. -/
theorem escDollar_cons (p : Option Char) (c : Char) (cs : List Char) :
    escDollar p (c :: cs) =
      if c = '$' ∧ braceNonDigit cs = true ∧ p ≠ some '\\' then
        '\\' :: c :: escDollar (some c) cs
      else c :: escDollar (some c) cs := rfl

/-- The escaping pass preserves whether the text starts with a digit. -/
theorem digitStart_escDollar (p : Option Char) (l : List Char) :
    digitStart (escDollar p l) = digitStart l := by
  cases l with
  | nil => rfl
  | cons c cs =>
    rw [escDollar_cons]
    by_cases h : c = '$' ∧ braceNonDigit cs = true ∧ p ≠ some '\\'
    · rw [if_pos h]
      obtain ⟨hc, _, _⟩ := h
      subst hc
      rfl
    · rw [if_neg h]
      rfl

/-- Unfolding `braceNonDigit` on a cons. -/
theorem braceNonDigit_cons (x : Char) (l : List Char) :
    braceNonDigit (x :: l) = if x = '{' then !digitStart l else false := by
  unfold braceNonDigit
  split
  · rename_i heq
    obtain ⟨hx, hl⟩ := List.cons.inj heq.symm
    rw [if_pos hx.symm, hl]
  · rename_i hne
    by_cases hx : x = '{'
    · subst hx
      exact absurd rfl (hne l)
    · rw [if_neg hx]

/-- The escaping pass cannot create a new `{`-not-digit continuation. -/
theorem braceNonDigit_escDollar (p : Option Char) (cs : List Char)
    (h : braceNonDigit cs = false) : braceNonDigit (escDollar p cs) = false := by
  cases cs with
  | nil => rfl
  | cons x r =>
    rw [escDollar_cons]
    by_cases hm : x = '$' ∧ braceNonDigit r = true ∧ p ≠ some '\\'
    · rw [if_pos hm]
      rfl
    · rw [if_neg hm]
      by_cases hx : x = '{'
      · subst hx
        rw [braceNonDigit_cons] at h ⊢
        rw [if_pos rfl] at h ⊢
        rw [digitStart_escDollar]
        exact h
      · rw [braceNonDigit_cons, if_neg hx]

/-- The escaping pass is idempotent. -/
theorem escDollar_idem (s : List Char) : ∀ (p : Option Char),
    escDollar p (escDollar p s) = escDollar p s := by
  induction s with
  | nil => intro p; rfl
  | cons c cs ih =>
    intro p
    rw [escDollar_cons]
    by_cases hm : c = '$' ∧ braceNonDigit cs = true ∧ p ≠ some '\\'
    · rw [if_pos hm]
      obtain ⟨hc, hb, hp⟩ := hm
      subst hc
      rw [escDollar_cons, if_neg (by simp)]
      rw [escDollar_cons, if_neg (by simp)]
      rw [ih (some '$')]
    · rw [if_neg hm]
      rw [escDollar_cons]
      by_cases hc : c = '$'
      · subst hc
        have hcond : ¬('$' = '$' ∧ braceNonDigit (escDollar (some '$') cs) = true ∧ p ≠ some '\\') := by
          intro ⟨_, hb2, hp2⟩
          rcases not_and_or.mp hm with h | h
          · exact h rfl
          · rcases not_and_or.mp h with h2 | h2
            · have := braceNonDigit_escDollar (some '$') cs (by
                cases hbb : braceNonDigit cs with
                | false => rfl
                | true => exact absurd hbb h2)
              rw [this] at hb2
              exact Bool.false_ne_true hb2
            · exact h2 hp2
        rw [if_neg hcond]
        rw [ih (some '$')]
      · rw [if_neg (by intro ⟨h, _⟩; exact hc h)]
        rw [ih (some c)]

/-- The escaping pass only inserts backslashes: erasing all backslashes
gives back the original line with its backslashes erased. -/
theorem escDollar_filter (s : List Char) : ∀ (p : Option Char),
    (escDollar p s).filter (fun c => c ≠ '\\') = s.filter (fun c => c ≠ '\\') := by
  induction s with
  | nil => intro p; rfl
  | cons c cs ih =>
    intro p
    rw [escDollar_cons]
    by_cases hm : c = '$' ∧ braceNonDigit cs = true ∧ p ≠ some '\\'
    · rw [if_pos hm]
      obtain ⟨hc, _, _⟩ := hm
      subst hc
      simp only [List.filter_cons]
      rw [ih (some '$')]
      rfl
    · rw [if_neg hm]
      simp only [List.filter_cons]
      rw [ih (some c)]

/-- Characters of the escaped line come from the line or are the
inserted backslashes. -/
theorem mem_escDollar (s : List Char) : ∀ (p : Option Char) (c : Char),
    c ∈ escDollar p s → c ∈ s ∨ c = '\\' := by
  induction s with
  | nil => intro p c h; simp [escDollar] at h
  | cons d cs ih =>
    intro p c h
    rw [escDollar_cons] at h
    by_cases hm : d = '$' ∧ braceNonDigit cs = true ∧ p ≠ some '\\'
    · rw [if_pos hm] at h
      rcases List.mem_cons.mp h with h2 | h2
      · exact Or.inr h2
      · rcases List.mem_cons.mp h2 with h3 | h3
        · exact Or.inl (h3 ▸ List.mem_cons_self d cs)
        · rcases ih (some d) c h3 with h4 | h4
          · exact Or.inl (List.mem_cons_of_mem d h4)
          · exact Or.inr h4
    · rw [if_neg hm] at h
      rcases List.mem_cons.mp h with h2 | h2
      · exact Or.inl (h2 ▸ List.mem_cons_self d cs)
      · rcases ih (some d) c h2 with h4 | h4
        · exact Or.inl (List.mem_cons_of_mem d h4)
        · exact Or.inr h4

/-- In the output of the escaping pass, any `${` occurrence that is not
followed by a digit is immediately preceded by a backslash (or sits at
the very start with the scan primed by a preceding backslash). -/
theorem escDollar_escaped : ∀ (s : List Char) (p : Option Char) (u w : List Char),
    escDollar p s = u ++ '$' :: '{' :: w → digitStart w = false →
    (u = [] ∧ p = some '\\') ∨ ∃ u2, u = u2 ++ ['\\'] := by
  intro s
  induction s with
  | nil =>
    intro p u w h _
    have := congrArg List.length h
    simp [escDollar] at this
    omega
  | cons c cs ih =>
    intro p u w h hdig
    rw [escDollar_cons] at h
    by_cases hm : c = '$' ∧ braceNonDigit cs = true ∧ p ≠ some '\\'
    · rw [if_pos hm] at h
      obtain ⟨hc, _, _⟩ := hm
      subst hc
      cases u with
      | nil =>
        obtain ⟨h1, _⟩ := List.cons.inj h
        exact absurd h1 (by decide)
      | cons a u2 =>
        obtain ⟨ha, h2⟩ := List.cons.inj h
        subst ha
        cases u2 with
        | nil => exact Or.inr ⟨[], by simpa using rfl⟩
        | cons b u3 =>
          obtain ⟨hb, h3⟩ := List.cons.inj h2
          subst hb
          rcases ih (some '$') u3 w h3 hdig with ⟨_, hps⟩ | ⟨u4, hu4⟩
          · exact absurd (Option.some.inj hps) (by decide)
          · refine Or.inr ⟨'\\' :: '$' :: u4, ?_⟩
            rw [hu4]
            rfl
    · rw [if_neg hm] at h
      cases u with
      | nil =>
        obtain ⟨hc, h2⟩ := List.cons.inj h
        subst hc
        match cs, h2 with
        | x :: r, h2 =>
          rw [escDollar_cons] at h2
          by_cases hm2 : x = '$' ∧ braceNonDigit r = true ∧ (some '$' : Option Char) ≠ some '\\'
          · rw [if_pos hm2] at h2
            obtain ⟨hx, _⟩ := List.cons.inj h2
            exact absurd hx (by decide)
          · rw [if_neg hm2] at h2
            obtain ⟨hx, hw⟩ := List.cons.inj h2
            subst hx
            have hdr : digitStart r = false := by
              rw [← digitStart_escDollar (some '{') r, hw]
              exact hdig
            have hbr : braceNonDigit ('{' :: r) = true := by
              rw [braceNonDigit_cons, if_pos rfl, hdr]
              rfl
            have hp : p = some '\\' := by
              rcases not_and_or.mp hm with h4 | h4
              · exact absurd rfl h4
              · rcases not_and_or.mp h4 with h5 | h5
                · exact absurd hbr h5
                · exact not_not.mp h5
            exact Or.inl ⟨rfl, hp⟩
      | cons a u2 =>
        obtain ⟨ha, h2⟩ := List.cons.inj h
        subst ha
        rcases ih (some c) u2 w h2 hdig with ⟨hu2, hps⟩ | ⟨u4, hu4⟩
        · subst hu2
          have : c = '\\' := Option.some.inj hps
          subst this
          exact Or.inr ⟨[], rfl⟩
        · refine Or.inr ⟨c :: u4, ?_⟩
          rw [hu4]
          rfl

/-- `mem_replaceAll` including the empty-token case. -/
theorem mem_replaceAll_all (t v s : List Char) (c : Char) (h : c ∈ replaceAll s t v) :
    c ∈ s ∨ c ∈ v := by
  by_cases ht : t = []
  · subst ht
    simp only [replaceAll, List.isEmpty_nil, if_true] at h
    rcases List.mem_append.mp h with h | h
    · exact Or.inr h
    · obtain ⟨l, hl, hcl⟩ := List.mem_flatten.mp h
      obtain ⟨d, hd, rfl⟩ := List.mem_map.mp hl
      rcases List.mem_cons.mp hcl with h2 | h2
      · exact Or.inl (h2 ▸ hd)
      · exact Or.inr h2
  · exact mem_replaceAll t v ht s.length s le_rfl c h

/-- A successful dict lookup returns one of the dict's bindings. -/
theorem dictGet?_mem (d : Dict) (k : String) (v : Val) (h : dictGet? d k = some v) :
    (k, v) ∈ d := by
  induction d with
  | nil => simp [dictGet?] at h
  | cons kv rest ih =>
    obtain ⟨k2, w⟩ := kv
    simp only [dictGet?] at h
    by_cases hk : (k2 == k) = true
    · rw [if_pos hk] at h
      have : k2 = k := eq_of_beq hk
      subst this
      obtain rfl := Option.some.inj h
      exact List.mem_cons_self _ _
    · rw [if_neg hk] at h
      exact List.mem_cons_of_mem _ (ih h)

/-- The attribute loop never introduces a carriage return when the line
and all string attribute values are free of them. -/
theorem subAttrFold_no_cr (P : String) (attr : Dict)
    (hvals : ∀ kv ∈ attr, ∀ s : String, kv.2 = Val.str s → '\r' ∉ s.data) :
    ∀ (kvs : List (String × Val)) (l out : List Char), '\r' ∉ l →
      List.foldlM (subAttrStep P attr) l kvs = .ok out → '\r' ∉ out := by
  intro kvs
  induction kvs with
  | nil =>
    intro l out hl h
    obtain rfl : l = out := Option.some.inj (congrArg Except.toOption h)
    exact hl
  | cons kv rest ih =>
    intro l out hl h
    rw [List.foldlM_cons] at h
    cases hstep : subAttrStep P attr l kv with
    | error e => rw [hstep] at h; exact absurd h (by simp [exceptBind_err])
    | ok l2 =>
      rw [hstep, exceptBind_ok] at h
      refine ih l2 out ?_ h
      simp only [subAttrStep] at hstep
      cases hfmt : pyFmt P kv.1 with
      | error e => rw [hfmt] at hstep; exact absurd hstep (by simp [exceptBind_err])
      | ok tok =>
        rw [hfmt, exceptBind_ok] at hstep
        cases hget : dictGet? attr kv.1 with
        | none =>
          simp only [dictGetD, hget, Option.getD_none, asStr, exceptBind_ok] at hstep
          obtain rfl := Option.some.inj (congrArg Except.toOption hstep)
          intro hmem
          rcases mem_replaceAll_all tok.data "".data l '\r' hmem with h2 | h2
          · exact hl h2
          · simp at h2
        | some v =>
          simp only [dictGetD, hget, Option.getD_some] at hstep
          cases v with
          | str s =>
            simp only [asStr, exceptBind_ok] at hstep
            obtain rfl := Option.some.inj (congrArg Except.toOption hstep)
            intro hmem
            rcases mem_replaceAll_all tok.data s.data l '\r' hmem with h2 | h2
            · exact hl h2
            · exact hvals (kv.1, .str s) (dictGet?_mem attr kv.1 _ hget) s rfl h2
          | bool b => exact absurd hstep (by simp [asStr, exceptBind_err])
          | list xs => exact absurd hstep (by simp [asStr, exceptBind_err])
          | dict xs => exact absurd hstep (by simp [asStr, exceptBind_err])
          | none => exact absurd hstep (by simp [asStr, exceptBind_err])

/-- `createLine` without window variables, staged. -/
theorem createLine_nowin (P : String) (attr : Dict) (line : List Char) :
    createLine P attr [] [] line =
      Except.bind (subAttrLine P attr line)
        (fun l1 => .ok (replaceAll (if P = "${%s}" then escDollar Option.none l1 else l1)
          ['\r'] [])) := by
  cases h : subAttrLine P attr line with
  | error e =>
    show Except.bind (subAttrLine P attr line) _ = _
    rw [h]
    rfl
  | ok l1 =>
    show Except.bind (subAttrLine P attr line) _ = _
    rw [h]
    rfl

/-- C2: when the delimiter pattern is exactly `${%s}`, the engine
escapes every `${` not preceded by a backslash and not followed by a
digit (conjunct 1: in the output, any remaining `${` not followed by a
digit is preceded by a backslash; conjunct 2: the rewrite only inserts
backslashes); when the pattern is any other string no escaping happens
(conjunct 3); and the two spec examples hold: `${foo}` with no
attribute `foo` becomes `\${foo}` while a registered `${name}` is
substituted, not escaped (conjuncts 4, 5). -/
theorem claimC2_dollar_brace_escaping :
    (∀ (attr : Dict) (line out u w : List Char),
        '\r' ∉ line →
        (∀ kv ∈ attr, ∀ s : String, kv.2 = Val.str s → '\r' ∉ s.data) →
        createLine "${%s}" attr [] [] line = .ok out →
        out = u ++ '$' :: '{' :: w → digitStart w = false →
        ∃ u2, u = u2 ++ ['\\']) ∧
    (∀ (p : Option Char) (s : List Char),
        (escDollar p s).filter (fun c => c ≠ '\\') = s.filter (fun c => c ≠ '\\')) ∧
    (∀ (P : String) (line : List Char), ¬P = "${%s}" → '\r' ∉ line →
        createLine P [] [] [] line = .ok line) ∧
    createLine "${%s}" [("name", Val.str "Foo")] [] [] "${foo}".data =
      .ok ('\\' :: "${foo}".data) ∧
    createLine "${%s}" [("name", Val.str "Foo")] [] [] "${name}".data = .ok "Foo".data := by
  refine ⟨?_, fun p s => escDollar_filter s p, ?_, by rfl, by rfl⟩
  · intro attr line out u w hrl hrv hcl hdec hdig
    rw [createLine_nowin] at hcl
    cases hsub : subAttrLine "${%s}" attr line with
    | error e => rw [hsub] at hcl; exact absurd hcl (by simp [Except.bind])
    | ok l1 =>
      rw [hsub] at hcl
      simp only [Except.bind, if_pos rfl, if_true, Except.ok.injEq] at hcl
      have h1 : '\r' ∉ l1 := subAttrFold_no_cr "${%s}" attr hrv attr line l1 hrl hsub
      have h2 : '\r' ∉ escDollar Option.none l1 := by
        intro hm
        rcases mem_escDollar l1 Option.none '\r' hm with h3 | h3
        · exact h1 h3
        · exact absurd h3 (by decide)
      rw [replaceAll_noop ['\r'] [] (by simp) _
        (fun h => h2 ((singleton_infix_iff_mem '\r' _).mp h))] at hcl
      rcases escDollar_escaped l1 Option.none u w (hcl.symm ▸ hdec) hdig with ⟨_, hps⟩ | h
      · exact absurd hps (by simp)
      · exact h
  · intro P line hP hrl
    rw [createLine_nowin]
    have hsub : subAttrLine P [] line = .ok line := rfl
    rw [hsub]
    simp only [Except.bind, if_neg hP, Except.ok.injEq]
    exact replaceAll_noop ['\r'] [] (by simp) _
      (fun h => hrl ((singleton_infix_iff_mem '\r' _).mp h))

/-- C2 (witness): instantiating the escape invariant on `${foo}` with
attribute map `{name: Foo}`: the single `${` of the output is preceded
by the inserted backslash. -/
theorem claimC2_witness :
    ∃ u2 : List Char, ['\\'] = u2 ++ ['\\'] :=
  claimC2_dollar_brace_escaping.1 [("name", Val.str "Foo")] "${foo}".data
    ('\\' :: "${foo}".data) ['\\'] "foo\x7d".data
    (by decide)
    (by
      intro kv hkv s hs
      simp only [List.mem_singleton] at hkv
      subst hkv
      injection hs with h2
      subst h2
      decide)
    (by rfl) (by rfl) (by rfl)

/-- Stripping a character leaves none of it behind. -/
theorem not_mem_replaceAll_self (c : Char) : ∀ (s : List Char), c ∉ replaceAll s [c] [] := by
  intro s
  induction s with
  | nil => rw [replaceAll_nil _ _ (by simp)]; simp
  | cons d s2 ih =>
    rw [replaceAll_cons _ _ _ _ (by simp)]
    by_cases hp : List.isPrefixOf [c] (d :: s2) = true
    · rw [if_pos hp]
      have : List.drop 1 (d :: s2) = s2 := rfl
      simpa [this] using ih
    · rw [if_neg hp]
      intro hm
      rcases List.mem_cons.mp hm with h | h
      · apply hp
        subst h
        simp [List.isPrefixOf]
      · exact ih h

/-- A second attribute pass whose tokens do not occur in the text (and
whose values are strings) leaves the text unchanged. -/
theorem subAttrFold_noop (P : String) (B : Dict) (o : List Char) :
    ∀ (kvs : List (String × Val)),
      (∀ kv ∈ kvs,
        (∃ tok : String, pyFmt P kv.1 = .ok tok ∧ tok.data ≠ [] ∧ ¬ tok.data <:+: o) ∧
        ∃ s : String, dictGetD B kv.1 (.str "") = Val.str s) →
      List.foldlM (subAttrStep P B) o kvs = .ok o := by
  intro kvs
  induction kvs with
  | nil => intro _; rfl
  | cons kv rest ih =>
    intro h
    obtain ⟨⟨tok, hfmt, htne, htok⟩, s, hs⟩ := h kv (List.mem_cons_self kv rest)
    rw [List.foldlM_cons]
    have hstep : subAttrStep P B o kv = .ok o := by
      simp only [subAttrStep, hfmt, exceptBind_ok, hs, asStr, exceptBind_ok]
      rw [replaceAll_noop tok.data s.data htne o htok]
      rfl
    rw [hstep, exceptBind_ok]
    exact ih (fun kv2 h2 => h kv2 (List.mem_cons_of_mem kv h2))

/-- C8 (counterexample): substituting with `A = {a: 1}` and then again
with the key-disjoint `B = {name: Foo}` is not a no-op when a token of
`B` occurs in the text: the second pass rewrites `{{name}}` to `Foo`. -/
theorem claimC8_counterexample :
    create_from_template "{{%s}}" [("a", Val.str "1")] [] [] ["{{name}}".data] =
      .ok ["{{name}}".data] ∧
    create_from_template "{{%s}}" [("name", Val.str "Foo")] [] [] ["{{name}}".data] =
      .ok ["Foo".data] ∧
    (∀ k, k = "a" → ¬k = "name") ∧
    ("Foo".data : List Char) ≠ "{{name}}".data :=
  ⟨by rfl, by rfl, by intro k h1 h2; rw [h1] at h2; exact absurd h2 (by decide), by decide⟩

/-- C8 (amended): a second engine pass over the first pass's output is
a no-op provided none of the second map's tokens occurs in that output
(key disjointness alone does not ensure this), the second map's values
are strings, and — when the delimiter is `${%s}` — the original line
and the first map's string values contain no carriage returns. -/
theorem claimC8_second_pass_noop :
    ∀ (P : String) (A B : Dict) (line o : List Char),
      createLine P A [] [] line = .ok o →
      (∀ kv ∈ B,
        (∃ tok : String, pyFmt P kv.1 = .ok tok ∧ tok.data ≠ [] ∧ ¬ tok.data <:+: o) ∧
        ∃ s : String, dictGetD B kv.1 (.str "") = Val.str s) →
      (P = "${%s}" → '\r' ∉ line ∧
        ∀ kv ∈ A, ∀ s : String, kv.2 = Val.str s → '\r' ∉ s.data) →
      createLine P B [] [] o = .ok o := by
  intro P A B line o hfirst htoks hcr
  have hcro : '\r' ∉ o := by
    rw [createLine_nowin] at hfirst
    cases hsub : subAttrLine P A line with
    | error e => rw [hsub] at hfirst; exact absurd hfirst (by simp [Except.bind])
    | ok x =>
      rw [hsub] at hfirst
      simp only [Except.bind, Except.ok.injEq] at hfirst
      rw [← hfirst]
      exact not_mem_replaceAll_self '\r' _
  rw [createLine_nowin]
  rw [show subAttrLine P B o = .ok o from subAttrFold_noop P B o B htoks]
  simp only [Except.bind, Except.ok.injEq]
  by_cases hP : P = "${%s}"
  · rw [if_pos hP]
    subst hP
    rw [createLine_nowin] at hfirst
    cases hsub : subAttrLine "${%s}" A line with
    | error e => rw [hsub] at hfirst; exact absurd hfirst (by simp [Except.bind])
    | ok x =>
      rw [hsub] at hfirst
      simp only [Except.bind, if_pos rfl, if_true, Except.ok.injEq] at hfirst
      obtain ⟨hline, hvals⟩ := hcr rfl
      have hx : '\r' ∉ x := subAttrFold_no_cr "${%s}" A hvals A line x hline hsub
      have hex : '\r' ∉ escDollar Option.none x := by
        intro hm
        rcases mem_escDollar x Option.none '\r' hm with h3 | h3
        · exact hx h3
        · exact absurd h3 (by decide)
      have ho : o = escDollar Option.none x := by
        rw [← hfirst]
        exact replaceAll_noop ['\r'] [] (by simp) _
          (fun h => hex ((singleton_infix_iff_mem '\r' _).mp h))
      have he : escDollar Option.none o = o := by
        rw [ho]
        exact escDollar_idem x Option.none
      rw [he]
      exact replaceAll_noop ['\r'] [] (by simp) _
        (fun h => hcro ((singleton_infix_iff_mem '\r' _).mp h))
  · rw [if_neg hP]
    exact replaceAll_noop ['\r'] [] (by simp) _
      (fun h => hcro ((singleton_infix_iff_mem '\r' _).mp h))

/-- C8 (witness): after substituting `{a: 1}` into `hello`, a second
pass with the disjoint map `{b: 2}` whose token does not occur in the
output leaves it unchanged. -/
theorem claimC8_witness :
    createLine "{{%s}}" [("b", Val.str "2")] [] [] "hello".data = .ok "hello".data :=
  claimC8_second_pass_noop "{{%s}}" [("a", Val.str "1")] [("b", Val.str "2")]
    "hello".data "hello".data (by rfl)
    (by
      intro kv hkv
      simp only [List.mem_singleton] at hkv
      subst hkv
      exact ⟨⟨"{{b}}", by rfl, by decide, by decide⟩, "2", by rfl⟩)
    (fun h => absurd h (by decide))

/-! ### C7: upward walk of the single-file generator -/

/-- Dropping a suffix computed on the reverse yields a prefix. -/
theorem revDropWhile_prefixOfSelf (q : Char → Bool) (p : List Char) :
    (p.reverse.dropWhile q).reverse <+: p := by
  have h : p.reverse.dropWhile q <:+ p.reverse := List.dropWhile_suffix q
  have h2 := List.reverse_prefix.mpr h
  rwa [List.reverse_reverse] at h2

/-- `dirnameL` yields a prefix of its argument. -/
theorem dirnameL_prefixOfSelf (p : List Char) : dirnameL p <+: p := by
  unfold dirnameL
  have h1 : takeToLastSlash p <+: p := revDropWhile_prefixOfSelf _ p
  by_cases hc : !(takeToLastSlash p).isEmpty ∧ ¬(takeToLastSlash p).all (fun c => c = '/')
  · rw [if_pos hc]
    exact (revDropWhile_prefixOfSelf _ (takeToLastSlash p)).trans h1
  · rw [if_neg hc]
    exact h1

/-- A non-fixed `posixDirname` strictly shortens the path. -/
theorem posixDirname_length_lt (s : String) (h : posixDirname s ≠ s) :
    (posixDirname s).length < s.length := by
  have hpre : (posixDirname s).data <+: s.data := dirnameL_prefixOfSelf s.data
  have hne : (posixDirname s).data ≠ s.data := by
    intro h2
    exact h (by
      cases s with
      | mk d =>
        cases hd : posixDirname ⟨d⟩ with
        | mk d2 =>
          rw [hd] at h2
          simp only at h2
          rw [h2])
  have hle := hpre.length_le
  rcases Nat.lt_or_ge (posixDirname s).data.length s.data.length with hlt | hge
  · exact hlt
  · exact absurd (hpre.eq_of_length (Nat.le_antisymm hle hge)) hne

/-- With enough fuel, the upward walk returns the first directory of
the ancestor chain registered in the location map. -/
theorem walkUpAux_eq_findSome (locs : VDict) :
    ∀ (f : Nat) (start : String), start.length < f →
      walkUpAux locs f start =
        (dirChainAux f start).findSome? (fun d => vdictGet? locs (.str d)) := by
  intro f
  induction f with
  | zero => intro start h; omega
  | succ f ih =>
    intro start h
    simp only [walkUpAux, dirChainAux]
    cases hg : vdictGet? locs (.str start) with
    | some v => simp [List.findSome?_cons, hg]
    | none =>
      simp only [List.findSome?_cons, hg]
      by_cases hfix : posixDirname start = start
      · rw [if_pos hfix, if_pos hfix]
        rfl
      · rw [if_neg hfix, if_neg hfix]
        have hlt : (posixDirname start).length < start.length := posixDirname_length_lt start hfix
        exact ih (posixDirname start) (by omega)

/-- C7 (counterexample): with an empty location map the single-file
generator shows the dialog `"No valid templates found"` — not the
claimed message `"no valid template found"` — and creates no buffer. -/
theorem claimC7_counterexample :
    process_template ⟨"/w", "/pk", [], [], [], fun _ => "", false, []⟩ ⟨[], []⟩ []
        "/a/b.tmpl" [] =
      ([Effect.dialog "No valid templates found"], .ok ()) ∧
    Effect.dialog "no valid template found" ∉ [Effect.dialog "No valid templates found"] := by
  refine ⟨by rfl, ?_⟩
  intro h
  rw [List.mem_singleton] at h
  injection h with h2
  exact absurd h2 (by decide)

/-- C7 (amended): the owning format of a chosen template file is found
by walking the file's path upward through its ancestor directories,
nearest ancestor first (the walk equals the first hit of the ancestor
chain in the location map); when no ancestor is registered the command
shows the dialog `"No valid templates found"`, performs no other
effect — in particular it creates no buffer — and returns normally. -/
theorem claimC7_walk_up_resolution :
    (∀ (locs : VDict) (start : String),
        walkUpFmt locs start =
          (dirChain start).findSome? (fun d => vdictGet? locs (.str d))) ∧
    (∀ (env : Env) (ms : MergedSettings) (locs : VDict) (template : String)
        (dirs : List String),
        walkUpFmt locs (posixDirname (posixAbspath env.cwd template)) = Option.none →
        process_template env ms locs template dirs =
          ([Effect.dialog noValidTemplateMsg], .ok ()) ∧
        Effect.newFile ∉ (process_template env ms locs template dirs).1) := by
  constructor
  · intro locs start
    exact walkUpAux_eq_findSome locs (start.length + 1) start (by omega)
  · intro env ms locs template dirs h
    have hpt : process_template env ms locs template dirs =
        ([Effect.dialog noValidTemplateMsg], .ok ()) := by
      simp only [process_template]
      rw [h]
      rfl
    refine ⟨hpt, ?_⟩
    rw [hpt]
    intro hm
    rw [List.mem_singleton] at hm
    exact Effect.noConfusion hm

/-- C7 (witness): walking up from `/t/sub/x.tmpl` with `/t` registered
finds the `/t` format (the nearest registered ancestor), and an
unregistered path triggers the no-templates dialog without a buffer. -/
theorem claimC7_witness :
    walkUpFmt [(Val.str "/t", Val.str "F")] "/t/sub" =
      (dirChain "/t/sub").findSome?
        (fun d => vdictGet? [(Val.str "/t", Val.str "F")] (.str d)) ∧
    process_template ⟨"/w", "/pk", [], [], [], fun _ => "", false, []⟩ ⟨[], []⟩ []
        "/a/b.tmpl" [] = ([Effect.dialog noValidTemplateMsg], .ok ()) :=
  ⟨claimC7_walk_up_resolution.1 [(Val.str "/t", Val.str "F")] "/t/sub",
   (claimC7_walk_up_resolution.2 ⟨"/w", "/pk", [], [], [], fun _ => "", false, []⟩ ⟨[], []⟩ []
     "/a/b.tmpl" [] (by rfl)).1⟩

/-! ### C3, C4: abort paths of the generators -/

theorem effBind_ok {α β : Type} (es : List Effect) (a : α) (f : α → EffM β) :
    (Bind.bind : EffM α → (α → EffM β) → EffM β) (es, Except.ok a) f =
      ((es ++ (f a).1, (f a).2) : EffM β) := rfl

theorem effBind_error {α β : Type} (es : List Effect) (e : String) (f : α → EffM β) :
    (Bind.bind : EffM α → (α → EffM β) → EffM β) (es, Except.error e) f =
      ((es, .error e) : EffM β) := rfl

theorem effPure {α : Type} (a : α) : (pure a : EffM α) = ([], Except.ok a) := rfl

/-- C3: when the chosen template's parent folder is not a key of the
resolved location map, the directory command prints the resolution
error (and the map) to the console and aborts with a `KeyError` before
any directory creation, file read, or file write: every effect in its
trace is a console message. -/
theorem claimC3_directory_unresolved_aborts :
    ∀ (env : Env) (ms : MergedSettings) (template name output_dir : String)
      (dirs : List String) (filterBy : String) (locs : VDict) (logs : List String),
      get_template_locations env.packagesPath ms filterBy = .ok (locs, logs) →
      vdictGet? locs (.str (posixDirname (posixAbspath env.cwd template))) = Option.none →
      runDirectory env ms template name output_dir dirs filterBy =
        (logs.map Effect.print ++
          [Effect.print (cantFindLocationMsg (posixDirname (posixAbspath env.cwd template))),
           Effect.printLocations locs], .error "KeyError") ∧
      ∀ e ∈ (runDirectory env ms template name output_dir dirs filterBy).1,
        e.isConsole = true := by
  intro env ms template name output_dir dirs filterBy locs logs hgtl hnone
  have hmem : vdictMem locs (.str (posixDirname (posixAbspath env.cwd template))) = false := by
    simp [vdictMem, hnone]
  have htrace : runDirectory env ms template name output_dir dirs filterBy =
      (logs.map Effect.print ++
        [Effect.print (cantFindLocationMsg (posixDirname (posixAbspath env.cwd template))),
         Effect.printLocations locs], .error "KeyError") := by
    simp only [runDirectory, liftE, hgtl, effBind_ok, effBind_error, tellEffs, tellEff,
      hmem, hnone, throwEff, Bool.not_false, if_pos, List.nil_append]
    rfl
  refine ⟨htrace, ?_⟩
  rw [htrace]
  intro e he
  rcases List.mem_append.mp he with h | h
  · obtain ⟨l, _, rfl⟩ := List.mem_map.mp h
    rfl
  · rcases List.mem_cons.mp h with h2 | h2
    · subst h2; rfl
    · rcases List.mem_cons.mp h2 with h3 | h3
      · subst h3; rfl
      · simp at h3

/-- C4 (counterexample): in the single-file generator the template
bytes are read *before* the delimiter pattern is validated: with the
invalid pattern `{{name}}` the trace contains the `readFile` of the
template ahead of the warning dialog, refuting "no template bytes
read". -/
theorem claimC4_counterexample :
    process_template ⟨"/w", "/pk", [], [("/t/x.tmpl", "hi")], ["/t"], fun _ => "", false, []⟩
        ⟨[], []⟩ [(Val.str "/t", Val.dict [("replace_pattern", Val.str "{{name}}")])]
        "/t/x.tmpl" [] =
      ([Effect.readFile "/t/x.tmpl",
        Effect.dialog (patternWarnMsg (Val.str "{{name}}")
          "TypeError: not all arguments converted during string formatting")],
       .error "TypeError: not all arguments converted during string formatting") ∧
    Effect.readFile "/t/x.tmpl" ∈
      (process_template ⟨"/w", "/pk", [], [("/t/x.tmpl", "hi")], ["/t"], fun _ => "", false, []⟩
        ⟨[], []⟩ [(Val.str "/t", Val.dict [("replace_pattern", Val.str "{{name}}")])]
        "/t/x.tmpl" []).1 := by
  refine ⟨by rfl, ?_⟩
  rw [show (process_template ⟨"/w", "/pk", [], [("/t/x.tmpl", "hi")], ["/t"], fun _ => "", false, []⟩
        ⟨[], []⟩ [(Val.str "/t", Val.dict [("replace_pattern", Val.str "{{name}}")])]
        "/t/x.tmpl" []).1 =
      [Effect.readFile "/t/x.tmpl",
       Effect.dialog (patternWarnMsg (Val.str "{{name}}")
         "TypeError: not all arguments converted during string formatting")] from rfl]
  exact List.mem_cons_self _ _

/-- C4 (amended): an invalid `replace_pattern` aborts both generators
with the warning dialog before any substitution and before any output
is written; in the directory generator this precedes *all* file I/O
(the trace holds only console lines and the dialog), while in the
single-file generator the template file has already been read — but
nothing is written and no buffer is created. -/
theorem claimC4_invalid_pattern_aborts :
    (∀ (env : Env) (ms : MergedSettings) (template name output_dir : String)
        (dirs : List String) (filterBy : String) (locs : VDict) (logs : List String)
        (fmt : Dict) (s err : String),
        get_template_locations env.packagesPath ms filterBy = .ok (locs, logs) →
        vdictGet? locs (.str (posixDirname (posixAbspath env.cwd template))) =
          some (Val.dict fmt) →
        dictGetD fmt "filename_replace_pattern" (.str "") = Val.str s →
        validatePattern (dictGetD fmt "replace_pattern" Val.none) = .error err →
        runDirectory env ms template name output_dir dirs filterBy =
          (logs.map Effect.print ++
            [Effect.dialog (patternWarnMsg (dictGetD fmt "replace_pattern" Val.none) err)],
           .error err) ∧
        ∀ e ∈ (runDirectory env ms template name output_dir dirs filterBy).1,
          e.isReport = true) ∧
    (∀ (env : Env) (ms : MergedSettings) (locs : VDict) (template : String)
        (dirs : List String) (fmt : Dict) (contents err : String),
        walkUpFmt locs (posixDirname (posixAbspath env.cwd template)) =
          some (Val.dict fmt) →
        is_resource_path env template = false →
        env.files.lookup template = some contents →
        validatePattern (dictGetD fmt "replace_pattern" Val.none) = .error err →
        process_template env ms locs template dirs =
          ([Effect.readFile template,
            Effect.dialog (patternWarnMsg (dictGetD fmt "replace_pattern" Val.none) err)],
           .error err) ∧
        Effect.newFile ∉ (process_template env ms locs template dirs).1 ∧
        ∀ p c, Effect.writeFile p c ∉ (process_template env ms locs template dirs).1) := by
  constructor
  · intro env ms template name output_dir dirs filterBy locs logs fmt s err
      hgtl hget hfp hval
    have hmem : vdictMem locs (.str (posixDirname (posixAbspath env.cwd template))) = true := by
      simp [vdictMem, hget]
    have htrace : runDirectory env ms template name output_dir dirs filterBy =
        (logs.map Effect.print ++
          [Effect.dialog (patternWarnMsg (dictGetD fmt "replace_pattern" Val.none) err)],
         .error err) := by
      simp only [runDirectory, liftE, hgtl, effPure, effBind_ok, effBind_error, tellEffs,
        tellEff, hmem, hget, throwEff, asDict, hfp, asStr, get_replace_pattern, hval,
        not_true, Bool.not_true, Bool.false_eq_true, if_false, ite_false, List.nil_append,
        List.append_nil]
    refine ⟨htrace, ?_⟩
    rw [htrace]
    intro e he
    rcases List.mem_append.mp he with h | h
    · obtain ⟨l, _, rfl⟩ := List.mem_map.mp h
      rfl
    · rcases List.mem_cons.mp h with h2 | h2
      · subst h2; rfl
      · simp at h2
  · intro env ms locs template dirs fmt contents err hwalk hres hfile hval
    have htrace : process_template env ms locs template dirs =
        ([Effect.readFile template,
          Effect.dialog (patternWarnMsg (dictGetD fmt "replace_pattern" Val.none) err)],
         .error err) := by
      simp only [process_template, hwalk, liftE, asDict, effPure, effBind_ok, effBind_error,
        get_code, hres, Bool.false_eq_true, if_false, ite_false, tellEff, hfile, format_tag,
        get_replace_pattern, hval, throwEff, List.nil_append, List.append_nil]
      rfl
    refine ⟨htrace, ?_, ?_⟩
    · rw [htrace]
      intro hm
      rcases List.mem_cons.mp hm with h | h
      · exact Effect.noConfusion h
      · rcases List.mem_cons.mp h with h2 | h2
        · exact Effect.noConfusion h2
        · simp at h2
    · intro p c
      rw [htrace]
      intro hm
      rcases List.mem_cons.mp hm with h | h
      · exact Effect.noConfusion h
      · rcases List.mem_cons.mp h with h2 | h2
        · exact Effect.noConfusion h2
        · simp at h2

/-- C4 (witness): a directory run whose format has the invalid pattern
`{{name}}` aborts with only the warning dialog in its trace — no
makedirs, reads, or writes. -/
theorem claimC4_witness :
    runDirectory ⟨"/w", "/pk", [], [], ["/t"], fun _ => "", false, []⟩
        ⟨[("template_formats", Val.list
            [Val.dict [("id", Val.str "x"),
                       ("format", Val.dict [("replace_pattern", Val.str "{{name}}"),
                                            ("filename_replace_pattern", Val.str "__%s__")])]]),
          ("template_locations", Val.list
            [Val.dict [("format", Val.str "x"), ("folders", Val.list [Val.str "/t"])]])], []⟩
        "/t/sub" "Nm" "/out" [] "all" =
      (([] : List String).map Effect.print ++
        [Effect.dialog (patternWarnMsg
          (dictGetD [("replace_pattern", Val.str "{{name}}"),
                     ("filename_replace_pattern", Val.str "__%s__")] "replace_pattern" Val.none)
          "TypeError: not all arguments converted during string formatting")],
       .error "TypeError: not all arguments converted during string formatting") ∧
    ∀ e ∈ (runDirectory ⟨"/w", "/pk", [], [], ["/t"], fun _ => "", false, []⟩
        ⟨[("template_formats", Val.list
            [Val.dict [("id", Val.str "x"),
                       ("format", Val.dict [("replace_pattern", Val.str "{{name}}"),
                                            ("filename_replace_pattern", Val.str "__%s__")])]]),
          ("template_locations", Val.list
            [Val.dict [("format", Val.str "x"), ("folders", Val.list [Val.str "/t"])]])], []⟩
        "/t/sub" "Nm" "/out" [] "all").1, e.isReport = true :=
  claimC4_invalid_pattern_aborts.1
    ⟨"/w", "/pk", [], [], ["/t"], fun _ => "", false, []⟩
    ⟨[("template_formats", Val.list
        [Val.dict [("id", Val.str "x"),
                   ("format", Val.dict [("replace_pattern", Val.str "{{name}}"),
                                        ("filename_replace_pattern", Val.str "__%s__")])]]),
      ("template_locations", Val.list
        [Val.dict [("format", Val.str "x"), ("folders", Val.list [Val.str "/t"])]])], []⟩
    "/t/sub" "Nm" "/out" [] "all"
    [(Val.str "/t", Val.dict [("replace_pattern", Val.str "{{name}}"),
                              ("filename_replace_pattern", Val.str "__%s__")])]
    []
    [("replace_pattern", Val.str "{{name}}"), ("filename_replace_pattern", Val.str "__%s__")]
    "__%s__" "TypeError: not all arguments converted during string formatting"
    (by rfl) (by rfl) (by rfl) (by rfl)

/-- C3 (witness): a directory run whose template parent `/q` is not a
registered location prints the resolution messages and aborts with a
`KeyError`; every effect in the trace is a console line. -/
theorem claimC3_witness :
    runDirectory ⟨"/w", "/pk", [], [], [], fun _ => "", false, []⟩
        ⟨[("template_formats", Val.list
            [Val.dict [("id", Val.str "x"),
                       ("format", Val.dict [("replace_pattern", Val.str "{{%s}}")])]]),
          ("template_locations", Val.list
            [Val.dict [("format", Val.str "x"), ("folders", Val.list [Val.str "/g"])]])], []⟩
        "/q/tpl" "Nm" "/out" [] "all" =
      (([] : List String).map Effect.print ++
        [Effect.print (cantFindLocationMsg (posixDirname (posixAbspath "/w" "/q/tpl"))),
         Effect.printLocations [(Val.str "/g", Val.dict [("replace_pattern", Val.str "{{%s}}")])]],
       .error "KeyError") ∧
    ∀ e ∈ (runDirectory ⟨"/w", "/pk", [], [], [], fun _ => "", false, []⟩
        ⟨[("template_formats", Val.list
            [Val.dict [("id", Val.str "x"),
                       ("format", Val.dict [("replace_pattern", Val.str "{{%s}}")])]]),
          ("template_locations", Val.list
            [Val.dict [("format", Val.str "x"), ("folders", Val.list [Val.str "/g"])]])], []⟩
        "/q/tpl" "Nm" "/out" [] "all").1, e.isConsole = true :=
  claimC3_directory_unresolved_aborts
    ⟨"/w", "/pk", [], [], [], fun _ => "", false, []⟩
    ⟨[("template_formats", Val.list
        [Val.dict [("id", Val.str "x"),
                   ("format", Val.dict [("replace_pattern", Val.str "{{%s}}")])]]),
      ("template_locations", Val.list
        [Val.dict [("format", Val.str "x"), ("folders", Val.list [Val.str "/g"])]])], []⟩
    "/q/tpl" "Nm" "/out" [] "all"
    [(Val.str "/g", Val.dict [("replace_pattern", Val.str "{{%s}}")])] []
    (by rfl) (by rfl)
